import Mathlib

/-!
# Tenant stamping processor (contrasttenanttransformprocessor)

A shallow embedding of `contrasttenanttransform_processor.go`.

The three exported operations `processTraces`, `processMetrics` and
`processLogs` read the tenant identifier from the request metadata, refuse a
batch in which a resource already carries the attribute `organization`, and
otherwise write that attribute on every resource of the batch.

The Go code mutates the batch it is given.  The embedding makes this explicit:
every operation returns an `Outcome` holding the returned batch, the returned
error, the final state of the batch object that was passed in, and the log
lines that were emitted.
-/

namespace TenantTransform

/-! ## Host library: strings, attribute values, attribute maps -/

/-- Go `len(s)` for a string: the number of bytes of its UTF-8 encoding. -/
def goLen (s : String) : Nat := s.utf8ByteSize

namespace strings

/-- Go `strings.Join(elems, sep)`: nothing for no element, the element itself
for one, and otherwise the first element followed by `sep` and the next
element, for every further element in order. -/
def Join : List String → String → String
  | [], _ => ""
  | [e], _ => e
  | e :: rest, sep => rest.foldl (fun b s => b ++ sep ++ s) e

/-- Go `strings.ToLower(s)`: every letter `A` to `Z` becomes its lower-case
letter.  Go also folds letters outside ASCII; those are left as they are. -/
def ToLower (s : String) : String := ⟨s.data.map Char.toLower⟩

end strings

/-- The attribute values of `pcommon.Value`.  A double is kept as its bit
pattern and a byte slice as the list of its bytes. -/
inductive Value where
  | empty : Value
  | str (s : String) : Value
  | int (i : Int) : Value
  | double (bits : Nat) : Value
  | bool (b : Bool) : Value
  | bytes (bs : List Nat) : Value
  | map (kvs : List (String × Value)) : Value
  | slice (vs : List Value) : Value

/-- The attribute map `pcommon.Map`: a slice of key/value entries. -/
abbrev Map := List (String × Value)

namespace Map

/-- The method `Map.Get(key)`: the value of the first entry with that key. -/
def Get : Map → String → Option Value
  | [], _ => none
  | (k, v) :: rest, key => if k = key then some v else Get rest key

/-- Overwrite the value of the first entry with key `k` (the `SetStr` branch of
`PutStr`). -/
def setFirst : Map → String → Value → Map
  | [], _, _ => []
  | (k, v) :: rest, key, w =>
    if k = key then (k, w) :: rest else (k, v) :: setFirst rest key w

/-- The method `Map.PutStr(k, v)`: when the key exists its value becomes the
string `v`, otherwise a new string entry is appended. -/
def PutStr (m : Map) (k : String) (v : String) : Map :=
  match m.Get k with
  | some _ => m.setFirst k (Value.str v)
  | none => m ++ [(k, Value.str v)]

end Map

/-- The type `pcommon.Resource`, reduced to its attributes. -/
structure Resource where
  attributes : Map

/-! ## Host library: the three batch kinds -/

/-- One `ptrace.ResourceSpans`: a resource and its nested span data, of a type
`S` the processor never looks into. -/
structure ResourceSpans (S : Type) where
  resource : Resource
  scopeSpans : S

/-- One `pmetric.ResourceMetrics`: a resource and its nested metric data. -/
structure ResourceMetrics (M : Type) where
  resource : Resource
  scopeMetrics : M

/-- One `plog.ResourceLogs`: a resource and its nested log records. -/
structure ResourceLogs (L : Type) where
  resource : Resource
  scopeLogs : L

/-- The batch `ptrace.Traces`. -/
structure Traces (S : Type) where
  resourceSpans : List (ResourceSpans S)

/-- The batch `pmetric.Metrics`. -/
structure Metrics (M : Type) where
  resourceMetrics : List (ResourceMetrics M)

/-- The batch `plog.Logs`. -/
structure Logs (L : Type) where
  resourceLogs : List (ResourceLogs L)

/-- The constructor `ptrace.NewTraces()`: a batch without resource spans. -/
def NewTraces {S : Type} : Traces S := ⟨[]⟩

/-- The constructor `pmetric.NewMetrics()`: a batch without resource metrics. -/
def NewMetrics {M : Type} : Metrics M := ⟨[]⟩

/-- The constructor `plog.NewLogs()`: a batch without resource logs. -/
def NewLogs {L : Type} : Logs L := ⟨[]⟩

/-! ## Host library: request metadata, errors, logger -/

/-- The request metadata `client.Metadata`: its private map, from keys as
`NewMetadata` stored them (in lower case) to their ordered values. -/
structure Metadata where
  data : List (String × List String)

namespace Metadata

/-- The method `Metadata.Get(key)`: the values stored under the key in lower
case, and no value when there is no such entry, so that the lookup does not
depend on the case of the key. -/
def Get (m : Metadata) (key : String) : List String :=
  match m.data.find? (fun kv => kv.1 = strings.ToLower key) with
  | some kv => kv.2
  | none => []

/-- The metadata has an entry for the key, whatever the case of its letters. -/
def Has (m : Metadata) (key : String) : Prop :=
  strings.ToLower key ∈ m.data.map Prod.fst

end Metadata

/-- The struct `client.Info`, reduced to its metadata. -/
structure Info where
  metadata : Metadata

/-- A `context.Context`: it may or may not carry a `client.Info`. -/
structure Context where
  clientInfo : Option Info

namespace client

/-- The function `client.NewMetadata(md)`: the metadata of the given keys and
values, every key stored in lower case. -/
def NewMetadata (md : List (String × List String)) : Metadata :=
  ⟨md.map (fun kv => (strings.ToLower kv.1, kv.2))⟩

/-- The function `client.FromContext`: the stored info, or the zero `Info`. -/
def FromContext (ctx : Context) : Info :=
  match ctx.clientInfo with
  | some ci => ci
  | none => ⟨⟨[]⟩⟩

end client

/-- An argument handed to `fmt.Errorf`. -/
inductive FmtArg where
  | str (s : String) : FmtArg
  | value (v : Value) : FmtArg

/-- One position of a text printed by `fmt`: a character, or the address a
pointer holds, which is printed as a hexadecimal number the embedding does not
follow. -/
inductive Glyph where
  | char (c : Char) : Glyph
  | pointer : Glyph
deriving DecidableEq

/-- The characters of a string as positions of a printed text. -/
def glyphs (s : String) : List Glyph := s.data.map Glyph.char

/-- A Go error built by `fmt.Errorf`: the text its `Error` method gives. -/
structure GoError where
  text : List Glyph
deriving DecidableEq

namespace fmt

/-- The text `fmt.Sprintf(format, args...)` prints, for the verbs the processor
uses: `%s` and `%v` of a string print the string; `%v` of a `pcommon.Value`
prints the struct behind it, which has no `String` method and two pointer
fields, as `{`, the first address, a blank, the second address, `}`.  Every
other character of the format is printed as it is. -/
def Sprintf : List Char → List FmtArg → List Glyph
  | [], _ => []
  | '%' :: 's' :: cs, FmtArg.str s :: as => glyphs s ++ Sprintf cs as
  | '%' :: 'v' :: cs, FmtArg.str s :: as => glyphs s ++ Sprintf cs as
  | '%' :: 'v' :: cs, FmtArg.value _ :: as =>
    [Glyph.char '{', Glyph.pointer, Glyph.char ' ', Glyph.pointer, Glyph.char '}']
      ++ Sprintf cs as
  | c :: cs, as => Glyph.char c :: Sprintf cs as

/-- The function `fmt.Errorf(format, args...)`: the error whose text is the
format printed with the arguments. -/
def Errorf (format : String) (args : List FmtArg) : GoError :=
  ⟨Sprintf format.data args⟩

end fmt

/-- Severity of a log line. -/
inductive Level where
  | error : Level
  | warn : Level
deriving DecidableEq

/-- A zap field made by `zap.String(key, val)`. -/
structure Field where
  key : String
  val : String
deriving DecidableEq

/-- One line written to the logger. -/
structure LogEntry where
  level : Level
  msg : String
  fields : List Field
deriving DecidableEq

/-- What a call leaves behind: the returned batch, the returned error, the final
state of the batch object that was passed in (it is mutated in place), and the
log lines written. -/
structure Outcome (B : Type) where
  returned : B
  err : Option GoError
  input : B
  logs : List LogEntry

/-! ## The processor -/

/-- Source constant `TenetHeaderKey`. -/
def TenetHeaderKey : String := "X-ORGANIZATION-ID"

/-- Source constant `TenetAttrKey`. -/
def TenetAttrKey : String := "organization"

/-- Format of the error returned when no tenant identifier is derived. -/
def missingTenantFormat : String := "tenant header was not present on request"

/-- Format of the error returned when a resource already has the attribute. -/
def conflictingTenantFormat : String :=
  "invalid tenant attribute \x27%s=%v\x27 present in data"

/-- The text of the error returned when a resource already has the attribute:
the key is printed by `%s`, and `%v` prints the two pointer fields of the value
handle it is given. -/
def conflictingTenantText : List Glyph :=
  glyphs "invalid tenant attribute \x27organization=" ++
    [Glyph.char '{', Glyph.pointer, Glyph.char ' ', Glyph.pointer, Glyph.char '}'] ++
    glyphs "\x27 present in data"

/-- The loop of `processTraces` over `rts`, from the current index on: the
final state of the remaining resource spans, and the value found when a
resource already has the attribute (the loop stops there). -/
def rtsLoop {S : Type} (orgVal : String) :
    List (ResourceSpans S) → List (ResourceSpans S) × Option Value
  | [] => ([], none)
  | rs :: rest =>
    match rs.resource.attributes.Get TenetAttrKey with
    | some val => (rs :: rest, some val)
    | none =>
      let r := rtsLoop orgVal rest
      (⟨⟨rs.resource.attributes.PutStr TenetAttrKey orgVal⟩, rs.scopeSpans⟩ :: r.1, r.2)

/-- The loop of `processMetrics` over `rms`, from the current index on. -/
def rmsLoop {M : Type} (orgVal : String) :
    List (ResourceMetrics M) → List (ResourceMetrics M) × Option Value
  | [] => ([], none)
  | rm :: rest =>
    match rm.resource.attributes.Get TenetAttrKey with
    | some val => (rm :: rest, some val)
    | none =>
      let r := rmsLoop orgVal rest
      (⟨⟨rm.resource.attributes.PutStr TenetAttrKey orgVal⟩, rm.scopeMetrics⟩ :: r.1, r.2)

/-- The loop of `processLogs` over `rls`, from the current index on. -/
def rlsLoop {L : Type} (orgVal : String) :
    List (ResourceLogs L) → List (ResourceLogs L) × Option Value
  | [] => ([], none)
  | rl :: rest =>
    match rl.resource.attributes.Get TenetAttrKey with
    | some val => (rl :: rest, some val)
    | none =>
      let r := rlsLoop orgVal rest
      (⟨⟨rl.resource.attributes.PutStr TenetAttrKey orgVal⟩, rl.scopeLogs⟩ :: r.1, r.2)

/-- Source function `tenantProcessor.processTraces`. -/
def processTraces {S : Type} (ctx : Context) (td : Traces S) : Outcome (Traces S) :=
  let ci := client.FromContext ctx
  let orgVal := strings.Join (ci.metadata.Get TenetHeaderKey) ";"
  if goLen orgVal = 0 then
    ⟨NewTraces, some (fmt.Errorf missingTenantFormat []), td,
      [⟨Level.error, "tenant header not present on data",
        [⟨"metadata.key", TenetHeaderKey⟩]⟩]⟩
  else
    match rtsLoop orgVal td.resourceSpans with
    | (rts, some val) =>
      ⟨NewTraces,
        some (fmt.Errorf conflictingTenantFormat [FmtArg.str TenetAttrKey, FmtArg.value val]),
        ⟨rts⟩,
        [⟨Level.warn,
          "invalid resource in span already includes the tenant information, dropping",
          [⟨TenetAttrKey, orgVal⟩]⟩]⟩
    | (rts, none) => ⟨⟨rts⟩, none, ⟨rts⟩, []⟩

/-- Source function `tenantProcessor.processMetrics`. -/
def processMetrics {M : Type} (ctx : Context) (md : Metrics M) : Outcome (Metrics M) :=
  let ci := client.FromContext ctx
  let orgVal := strings.Join (ci.metadata.Get TenetHeaderKey) ";"
  if goLen orgVal = 0 then
    ⟨NewMetrics, some (fmt.Errorf missingTenantFormat []), md,
      [⟨Level.error, "Tenant metadata not present on request",
        [⟨"metadata.key", TenetHeaderKey⟩]⟩]⟩
  else
    match rmsLoop orgVal md.resourceMetrics with
    | (rms, some val) =>
      ⟨NewMetrics,
        some (fmt.Errorf conflictingTenantFormat [FmtArg.str TenetAttrKey, FmtArg.value val]),
        ⟨rms⟩,
        [⟨Level.warn,
          "invalid resource in metric already includes the tenant information, dropping",
          [⟨TenetAttrKey, orgVal⟩]⟩]⟩
    | (rms, none) => ⟨⟨rms⟩, none, ⟨rms⟩, []⟩

/-- Source function `tenantProcessor.processLogs`. -/
def processLogs {L : Type} (ctx : Context) (ld : Logs L) : Outcome (Logs L) :=
  let ci := client.FromContext ctx
  let orgVal := strings.Join (ci.metadata.Get TenetHeaderKey) ";"
  if goLen orgVal = 0 then
    ⟨NewLogs, some (fmt.Errorf missingTenantFormat []), ld,
      [⟨Level.error, "Tenant metadata not present on request",
        [⟨"metadata.key", TenetHeaderKey⟩]⟩]⟩
  else
    match rlsLoop orgVal ld.resourceLogs with
    | (rls, some val) =>
      ⟨NewLogs,
        some (fmt.Errorf conflictingTenantFormat [FmtArg.str TenetAttrKey, FmtArg.value val]),
        ⟨rls⟩,
        [⟨Level.warn,
          "invalid resource in log already includes the tenant information, dropping",
          [⟨TenetAttrKey, orgVal⟩]⟩]⟩
    | (rls, none) => ⟨⟨rls⟩, none, ⟨rls⟩, []⟩

/-! ## Vocabulary of the properties -/

/-- The values the request metadata holds under `TenetHeaderKey`. -/
def tenantValues (ctx : Context) : List String :=
  (client.FromContext ctx).metadata.Get TenetHeaderKey

/-- The tenant identifier of a request: its metadata values joined with `;`. -/
def tenantId (ctx : Context) : String := strings.Join (tenantValues ctx) ";"

/-- The attribute map has an entry with key `k`. -/
def Map.HasKey (m : Map) (k : String) : Prop := k ∈ m.map Prod.fst

/-- The entries of an attribute map whose key is `k`. -/
def Map.entriesOf (m : Map) (k : String) : Map := m.filter (fun kv => kv.1 = k)

/-- The entries of an attribute map whose key is not `k`. -/
def Map.entriesOther (m : Map) (k : String) : Map := m.filter (fun kv => ¬ kv.1 = k)

/-- The error is the one returned when no tenant identifier is derived. -/
def IsMissingTenant (e : Option GoError) : Prop :=
  e = some (fmt.Errorf missingTenantFormat [])

/-- The error is the one returned when a resource already has the attribute. -/
def IsConflictingTenant (e : Option GoError) : Prop :=
  ∃ val : Value,
    e = some (fmt.Errorf conflictingTenantFormat [FmtArg.str TenetAttrKey, FmtArg.value val])

/-- The resource groups of a trace batch as the processor sees them, in order:
the attribute map of the resource and the nested span data. -/
def Traces.groups {S : Type} (td : Traces S) : List (Map × S) :=
  td.resourceSpans.map (fun rs => (rs.resource.attributes, rs.scopeSpans))

/-- The resource groups of a metric batch, in order. -/
def Metrics.groups {M : Type} (md : Metrics M) : List (Map × M) :=
  md.resourceMetrics.map (fun rm => (rm.resource.attributes, rm.scopeMetrics))

/-- The resource groups of a log batch, in order. -/
def Logs.groups {L : Type} (ld : Logs L) : List (Map × L) :=
  ld.resourceLogs.map (fun rl => (rl.resource.attributes, rl.scopeLogs))

/-- No resource group carries the attribute key `organization`. -/
def Free {P : Type} (gs : List (Map × P)) : Prop :=
  ∀ g ∈ gs, ¬ g.1.HasKey TenetAttrKey

/-- Some resource group carries the attribute key `organization`. -/
def Conflicting {P : Type} (gs : List (Map × P)) : Prop :=
  ∃ g ∈ gs, g.1.HasKey TenetAttrKey

/-- A resource group with the string attribute `organization = id` added at the
end of its attributes. -/
def withTenant {P : Type} (id : String) (g : Map × P) : Map × P :=
  (g.1 ++ [(TenetAttrKey, Value.str id)], g.2)

/-- The groups `output` are the groups `input`, one for one and in the same
order (same nested data, same attributes under every other key), each with
exactly one attribute `organization`, a string equal to `id`. -/
def Stamped {P : Type} (id : String) (input output : List (Map × P)) : Prop :=
  output.length = input.length ∧
  output.map Prod.snd = input.map Prod.snd ∧
  output.map (fun g => g.1.entriesOther TenetAttrKey) =
    input.map (fun g => g.1.entriesOther TenetAttrKey) ∧
  ∀ g ∈ output, g.1.entriesOf TenetAttrKey = [(TenetAttrKey, Value.str id)]

/-- A request context whose metadata holds `vals` under `TenetHeaderKey` and
nothing else. -/
def ctxOf (vals : List String) : Context :=
  ⟨some ⟨client.NewMetadata [(TenetHeaderKey, vals)]⟩⟩

/-- A trace batch of one resource without attributes, with one span name. -/
def tdPlain : Traces (List String) := ⟨[⟨⟨[]⟩, ["span-1"]⟩]⟩

/-- A metric batch of one resource without attributes, with one metric name. -/
def mdPlain : Metrics (List String) := ⟨[⟨⟨[]⟩, ["metric-1"]⟩]⟩

/-- A log batch of one resource without attributes, with one log body. -/
def ldPlain : Logs (List String) := ⟨[⟨⟨[]⟩, ["log-1"]⟩]⟩

/-- A trace batch of one resource that already has `organization = "someone"`. -/
def tdTagged : Traces (List String) :=
  ⟨[⟨⟨[(TenetAttrKey, Value.str "someone")]⟩, ["span-1"]⟩]⟩

/-- A metric batch of one resource that already has `organization = "someone"`. -/
def mdTagged : Metrics (List String) :=
  ⟨[⟨⟨[(TenetAttrKey, Value.str "someone")]⟩, ["metric-1"]⟩]⟩

/-- A log batch of one resource that already has `organization = "someone"`. -/
def ldTagged : Logs (List String) :=
  ⟨[⟨⟨[(TenetAttrKey, Value.str "someone")]⟩, ["log-1"]⟩]⟩

/-- A trace batch of two resources: the first without attributes, the second
already with `organization = "someone"`. -/
def tdMixed : Traces (List String) :=
  ⟨[⟨⟨[]⟩, ["span-1"]⟩, ⟨⟨[(TenetAttrKey, Value.str "someone")]⟩, ["span-2"]⟩]⟩

/-- A metric batch of two resources: the first without attributes, the second
already with `organization = "someone"`. -/
def mdMixed : Metrics (List String) :=
  ⟨[⟨⟨[]⟩, ["metric-1"]⟩, ⟨⟨[(TenetAttrKey, Value.str "someone")]⟩, ["metric-2"]⟩]⟩

/-- A log batch of two resources: the first without attributes, the second
already with `organization = "someone"`. -/
def ldMixed : Logs (List String) :=
  ⟨[⟨⟨[]⟩, ["log-1"]⟩, ⟨⟨[(TenetAttrKey, Value.str "someone")]⟩, ["log-2"]⟩]⟩

/-- A trace batch of one resource with the attribute `service.name`. -/
def tdService : Traces (List String) :=
  ⟨[⟨⟨[("service.name", Value.str "checkout")]⟩, ["span-1"]⟩]⟩

/-- A metric batch of one resource with the attribute `service.name`. -/
def mdService : Metrics (List String) :=
  ⟨[⟨⟨[("service.name", Value.str "checkout")]⟩, ["metric-1"]⟩]⟩

/-- A log batch of one resource with the attribute `service.name`. -/
def ldService : Logs (List String) :=
  ⟨[⟨⟨[("service.name", Value.str "checkout")]⟩, ["log-1"]⟩]⟩

/-- The lowest-index resource group carrying the key `organization` is the one
at index `k`, and the value it has under that key is `v`. -/
def FirstConflictAt {P : Type} (gs : List (Map × P)) (k : Nat) (v : Value) : Prop :=
  Free (gs.take k) ∧ ∃ g, gs[k]? = some g ∧ g.1.Get TenetAttrKey = some v

/-- A request context that holds `vals` under `TenetHeaderKey` after two other
metadata keys. -/
def ctxWithOthers (vals : List String) : Context :=
  ⟨some ⟨client.NewMetadata [("User-Agent", ["probe/1.0"]), ("X-Request-Id", ["42", "43"]),
    (TenetHeaderKey, vals)]⟩⟩

/-- A trace batch of three resources: the first without attributes, the second
with `organization = "first"`, the third with `organization = "second"`. -/
def tdTwice : Traces (List String) :=
  ⟨[⟨⟨[]⟩, ["span-1"]⟩, ⟨⟨[(TenetAttrKey, Value.str "first")]⟩, ["span-2"]⟩,
    ⟨⟨[(TenetAttrKey, Value.str "second")]⟩, ["span-3"]⟩]⟩

/-- A metric batch of three resources: the first without attributes, the second
with `organization = "first"`, the third with `organization = "second"`. -/
def mdTwice : Metrics (List String) :=
  ⟨[⟨⟨[]⟩, ["metric-1"]⟩, ⟨⟨[(TenetAttrKey, Value.str "first")]⟩, ["metric-2"]⟩,
    ⟨⟨[(TenetAttrKey, Value.str "second")]⟩, ["metric-3"]⟩]⟩

/-- A log batch of three resources: the first without attributes, the second
with `organization = "first"`, the third with `organization = "second"`. -/
def ldTwice : Logs (List String) :=
  ⟨[⟨⟨[]⟩, ["log-1"]⟩, ⟨⟨[(TenetAttrKey, Value.str "first")]⟩, ["log-2"]⟩,
    ⟨⟨[(TenetAttrKey, Value.str "second")]⟩, ["log-3"]⟩]⟩

/-- The common shape of the three loops, over any kind of resource group: `attrs`
reads the attribute map of a group and `withAttrs` replaces it. -/
def stampLoop {G : Type} (attrs : G → Map) (withAttrs : G → Map → G) (orgVal : String) :
    List G → List G × Option Value
  | [] => ([], none)
  | g :: rest =>
    match (attrs g).Get TenetAttrKey with
    | some val => (g :: rest, some val)
    | none =>
      let r := stampLoop attrs withAttrs orgVal rest
      (withAttrs g ((attrs g).PutStr TenetAttrKey orgVal) :: r.1, r.2)

/-- The three operations seen on the attribute maps alone: the returned error,
the attribute maps of the returned batch, and the attribute maps the batch that
was passed in ends with. -/
def attrOutcome (ctx : Context) (as : List Map) : Option GoError × List Map × List Map :=
  if tenantId ctx = "" then
    (some (fmt.Errorf missingTenantFormat []), [], as)
  else
    match stampLoop (fun m : Map => m) (fun _ m => m) (tenantId ctx) as with
    | (bs, some val) =>
      (some (fmt.Errorf conflictingTenantFormat [FmtArg.str TenetAttrKey, FmtArg.value val]),
        [], bs)
    | (bs, none) => (none, bs, bs)

/-! ## Strings -/

theorem goLen_eq_zero_iff (s : String) : goLen s = 0 ↔ s = "" := by
  constructor
  · intro h
    cases s with
    | mk cs =>
      cases cs with
      | nil => rfl
      | cons c cs =>
        have hc := Char.utf8Size_pos c
        simp only [goLen, String.utf8ByteSize, String.utf8ByteSize.go] at h
        omega
  · intro h
    subst h
    rfl

theorem foldl_join_data (sep : String) (rest : List String) (b : String) :
    ∃ t : List Char, (rest.foldl (fun b s => b ++ sep ++ s) b).data = b.data ++ t := by
  induction rest generalizing b with
  | nil => exact ⟨[], by simp⟩
  | cons s rest ih =>
    obtain ⟨t, ht⟩ := ih (b ++ sep ++ s)
    refine ⟨sep.data ++ s.data ++ t, ?_⟩
    simp only [List.foldl_cons, ht, String.data_append, List.append_assoc]

theorem foldl_join_ne_empty (sep : String) (rest : List String) (b : String) (hb : b ≠ "") :
    rest.foldl (fun b s => b ++ sep ++ s) b ≠ "" := by
  obtain ⟨t, ht⟩ := foldl_join_data sep rest b
  intro h
  rw [h] at ht
  have hb2 : b.data = [] := by
    have : b.data ++ t = [] := ht.symm
    exact (List.append_eq_nil.mp this).1
  exact hb (String.ext hb2)

theorem join_eq_intercalate_go (sep : String) (rest : List String) (b : String) :
    rest.foldl (fun b s => b ++ sep ++ s) b = String.intercalate.go b sep rest := by
  induction rest generalizing b with
  | nil => rfl
  | cons s rest ih => simp only [List.foldl_cons, String.intercalate.go, ih]

theorem join_eq_intercalate (vals : List String) (sep : String) :
    strings.Join vals sep = sep.intercalate vals := by
  match vals with
  | [] => rfl
  | [e] => rfl
  | e :: e2 :: rest =>
    simp only [strings.Join, String.intercalate]
    exact join_eq_intercalate_go sep (e2 :: rest) e

theorem append_sep_ne_empty (e s : String) : e ++ ";" ++ s ≠ "" := by
  intro h
  have h2 := congrArg String.data h
  simp only [String.data_append] at h2
  have h3 : (";" : String).data = [] := (List.append_eq_nil.mp (List.append_eq_nil.mp h2).1).2
  exact absurd h3 (by decide)

theorem join_ne_empty_of_some (vals : List String) (v : String) (hv : v ∈ vals)
    (hne : v ≠ "") : strings.Join vals ";" ≠ "" := by
  match vals, hv with
  | [e], hv =>
    simp only [List.mem_singleton] at hv
    subst hv
    exact hne
  | e :: e2 :: rest, _ =>
    simp only [strings.Join, List.foldl_cons]
    exact foldl_join_ne_empty ";" rest _ (append_sep_ne_empty e e2)

theorem join_ne_empty_of_two (e e2 : String) (rest : List String) :
    strings.Join (e :: e2 :: rest) ";" ≠ "" := by
  simp only [strings.Join, List.foldl_cons]
  exact foldl_join_ne_empty ";" rest _ (append_sep_ne_empty e e2)

theorem join_eq_empty_iff (vals : List String) :
    strings.Join vals ";" = "" ↔ vals = [] ∨ vals = [""] := by
  constructor
  · intro h
    match vals, h with
    | [], _ => exact Or.inl rfl
    | [e], h =>
      right
      simp only [strings.Join] at h
      rw [h]
    | e :: e2 :: rest, h => exact absurd h (join_ne_empty_of_two e e2 rest)
  · rintro (h | h) <;> subst h <;> rfl

/-! ## Attribute maps -/

theorem Map.get_eq_none_iff (m : Map) (k : String) : m.Get k = none ↔ ¬ m.HasKey k := by
  induction m with
  | nil => simp [Map.Get, Map.HasKey]
  | cons kv rest ih =>
    obtain ⟨k2, v⟩ := kv
    unfold Map.HasKey at ih
    by_cases h : k2 = k
    · simp [Map.Get, Map.HasKey, h]
    · have h2 : ¬ k = k2 := fun e => h e.symm
      simp [Map.Get, Map.HasKey, h, h2, ih]

theorem Map.hasKey_iff_get (m : Map) (k : String) : m.HasKey k ↔ ∃ v, m.Get k = some v := by
  constructor
  · intro h
    cases hg : m.Get k with
    | none => exact absurd h ((Map.get_eq_none_iff m k).mp hg)
    | some v => exact ⟨v, rfl⟩
  · rintro ⟨v, hv⟩
    by_contra hc
    rw [(Map.get_eq_none_iff m k).mpr hc] at hv
    cases hv

theorem Map.putStr_of_none (m : Map) (k v : String) (h : m.Get k = none) :
    m.PutStr k v = m ++ [(k, Value.str v)] := by
  simp only [Map.PutStr, h]

theorem Map.get_append_new (m : Map) (k : String) (w : Value) (h : m.Get k = none) :
    Map.Get (m ++ [(k, w)]) k = some w := by
  induction m with
  | nil => simp [Map.Get]
  | cons kv rest ih =>
    obtain ⟨k2, v⟩ := kv
    by_cases hk : k2 = k
    · simp [Map.Get, hk] at h
    · simp only [Map.Get, hk, if_false] at h
      simp only [List.cons_append, Map.Get, hk, if_false]
      exact ih h

theorem Map.entriesOf_eq_nil (m : Map) (k : String) (h : m.Get k = none) :
    m.entriesOf k = [] := by
  have hk := (Map.get_eq_none_iff m k).mp h
  unfold Map.HasKey at hk
  unfold Map.entriesOf
  rw [List.filter_eq_nil_iff]
  intro kv hkv hdec
  apply hk
  have : kv.1 = k := by simpa using hdec
  rw [← this]
  exact List.mem_map_of_mem Prod.fst hkv

theorem Map.entriesOther_eq_self (m : Map) (k : String) (h : m.Get k = none) :
    m.entriesOther k = m := by
  have hk := (Map.get_eq_none_iff m k).mp h
  unfold Map.HasKey at hk
  unfold Map.entriesOther
  rw [List.filter_eq_self]
  intro kv hkv
  have : ¬ kv.1 = k := by
    intro e
    apply hk
    rw [← e]
    exact List.mem_map_of_mem Prod.fst hkv
  simpa using this

theorem Map.entriesOf_append_new (m : Map) (k : String) (w : Value) (h : m.Get k = none) :
    Map.entriesOf (m ++ [(k, w)]) k = [(k, w)] := by
  have h1 := Map.entriesOf_eq_nil m k h
  unfold Map.entriesOf at h1 ⊢
  rw [List.filter_append, h1]
  simp

theorem Map.entriesOther_append_new (m : Map) (k : String) (w : Value) :
    Map.entriesOther (m ++ [(k, w)]) k = m.entriesOther k := by
  unfold Map.entriesOther
  rw [List.filter_append]
  simp

/-! ## The loop -/

theorem rtsLoop_eq_stampLoop {S : Type} (orgVal : String) (rts : List (ResourceSpans S)) :
    rtsLoop orgVal rts =
      stampLoop (fun rs => rs.resource.attributes) (fun rs m => ⟨⟨m⟩, rs.scopeSpans⟩)
        orgVal rts := by
  induction rts with
  | nil => rfl
  | cons rs rest ih => simp only [rtsLoop, stampLoop, ih]

theorem rmsLoop_eq_stampLoop {M : Type} (orgVal : String) (rms : List (ResourceMetrics M)) :
    rmsLoop orgVal rms =
      stampLoop (fun rm => rm.resource.attributes) (fun rm m => ⟨⟨m⟩, rm.scopeMetrics⟩)
        orgVal rms := by
  induction rms with
  | nil => rfl
  | cons rm rest ih => simp only [rmsLoop, stampLoop, ih]

theorem rlsLoop_eq_stampLoop {L : Type} (orgVal : String) (rls : List (ResourceLogs L)) :
    rlsLoop orgVal rls =
      stampLoop (fun rl => rl.resource.attributes) (fun rl m => ⟨⟨m⟩, rl.scopeLogs⟩)
        orgVal rls := by
  induction rls with
  | nil => rfl
  | cons rl rest ih => simp only [rlsLoop, stampLoop, ih]

section Loop

variable {G : Type} (attrs : G → Map) (withAttrs : G → Map → G) (orgVal : String)

theorem stampLoop_free (l : List G) (h : ∀ g ∈ l, (attrs g).Get TenetAttrKey = none) :
    stampLoop attrs withAttrs orgVal l =
      (l.map (fun g => withAttrs g (attrs g ++ [(TenetAttrKey, Value.str orgVal)])), none) := by
  induction l with
  | nil => rfl
  | cons g rest ih =>
    have hg := h g (List.mem_cons_self g rest)
    have hr := ih (fun x hx => h x (List.mem_cons_of_mem g hx))
    simp only [stampLoop, hg, hr, List.map_cons, Map.putStr_of_none _ _ _ hg]

theorem stampLoop_conflict (pre post : List G) (g : G) (v : Value)
    (hpre : ∀ x ∈ pre, (attrs x).Get TenetAttrKey = none)
    (hg : (attrs g).Get TenetAttrKey = some v) :
    stampLoop attrs withAttrs orgVal (pre ++ g :: post) =
      (pre.map (fun x => withAttrs x (attrs x ++ [(TenetAttrKey, Value.str orgVal)]))
        ++ g :: post, some v) := by
  induction pre with
  | nil => simp only [List.nil_append, stampLoop, hg, List.map_nil]
  | cons x rest ih =>
    have hx := hpre x (List.mem_cons_self x rest)
    have hr := ih (fun y hy => hpre y (List.mem_cons_of_mem x hy))
    show stampLoop attrs withAttrs orgVal (x :: (rest ++ g :: post)) = _
    simp only [stampLoop, hx, hr, List.map_cons, Map.putStr_of_none _ _ _ hx,
      List.cons_append]

theorem stampLoop_snd_eq_none_iff (l : List G) :
    (stampLoop attrs withAttrs orgVal l).2 = none ↔
      ∀ g ∈ l, (attrs g).Get TenetAttrKey = none := by
  induction l with
  | nil => simp [stampLoop]
  | cons g rest ih =>
    cases hg : (attrs g).Get TenetAttrKey with
    | some v =>
      simp only [stampLoop, hg, List.mem_cons, forall_eq_or_imp]
      simp
    | none =>
      simp only [stampLoop, hg, List.mem_cons, forall_eq_or_imp, true_and]
      exact ih

end Loop

/-! ## Resource groups -/

theorem exists_first_conflict {G : Type} (attrs : G → Map) (l : List G)
    (h : ∃ g ∈ l, (attrs g).HasKey TenetAttrKey) :
    ∃ pre g post v, l = pre ++ g :: post ∧
      (∀ x ∈ pre, (attrs x).Get TenetAttrKey = none) ∧
      (attrs g).Get TenetAttrKey = some v := by
  induction l with
  | nil =>
    obtain ⟨g, hg, _⟩ := h
    cases hg
  | cons x rest ih =>
    cases hx : (attrs x).Get TenetAttrKey with
    | some v => exact ⟨[], x, rest, v, rfl, by simp, hx⟩
    | none =>
      have hrest : ∃ g ∈ rest, (attrs g).HasKey TenetAttrKey := by
        obtain ⟨g, hg, hk⟩ := h
        rcases List.mem_cons.mp hg with e | e
        · subst e
          exact absurd hk ((Map.get_eq_none_iff _ _).mp hx)
        · exact ⟨g, e, hk⟩
      obtain ⟨pre, g, post, v, hl, hpre, hg⟩ := ih hrest
      refine ⟨x :: pre, g, post, v, by rw [hl]; rfl, ?_, hg⟩
      intro y hy
      rcases List.mem_cons.mp hy with e | e
      · subst e
        exact hx
      · exact hpre y e

theorem stamped_withTenant {P : Type} (id : String) (gs : List (Map × P)) (h : Free gs) :
    Stamped id gs (gs.map (withTenant id)) := by
  refine ⟨by simp, ?_, ?_, ?_⟩
  · simp [List.map_map, Function.comp_def, withTenant]
  · simp [List.map_map, Function.comp_def, withTenant, Map.entriesOther_append_new]
  · intro g hg
    obtain ⟨g0, hg0, rfl⟩ := List.mem_map.mp hg
    exact Map.entriesOf_append_new g0.1 TenetAttrKey _
      ((Map.get_eq_none_iff _ _).mpr (h g0 hg0))

theorem errorf_conflicting_text (v : Value) :
    fmt.Errorf conflictingTenantFormat [FmtArg.str TenetAttrKey, FmtArg.value v] =
      ⟨conflictingTenantText⟩ := by
  rfl

theorem errorf_missing_text :
    fmt.Errorf missingTenantFormat [] = ⟨glyphs missingTenantFormat⟩ := by
  rfl

theorem not_conflicting_of_missing (e : Option GoError) (h : IsMissingTenant e) :
    ¬ IsConflictingTenant e := by
  rintro ⟨v, hv⟩
  rw [h, errorf_conflicting_text, errorf_missing_text] at hv
  exact absurd hv (by decide)

theorem not_conflicting_none : ¬ IsConflictingTenant none := by
  rintro ⟨v, hv⟩
  cases hv

theorem not_missing_none : ¬ IsMissingTenant none := by
  intro h
  cases h

/-! ## processTraces -/

theorem processTraces_of_empty {S : Type} (ctx : Context) (td : Traces S)
    (h : tenantId ctx = "") :
    (processTraces ctx td).err = some (fmt.Errorf missingTenantFormat []) ∧
      (processTraces ctx td).returned = NewTraces ∧
      (processTraces ctx td).input = td ∧
      (processTraces ctx td).logs =
        [⟨Level.error, "tenant header not present on data",
          [⟨"metadata.key", TenetHeaderKey⟩]⟩] := by
  have h2 : goLen (strings.Join ((client.FromContext ctx).metadata.Get TenetHeaderKey) ";") = 0 :=
    (goLen_eq_zero_iff _).mpr h
  simp only [processTraces, h2, if_true, and_self]

theorem processTraces_of_free {S : Type} (ctx : Context) (td : Traces S)
    (h : tenantId ctx ≠ "") (hf : Free td.groups) :
    (processTraces ctx td).err = none ∧
      (processTraces ctx td).returned.groups = td.groups.map (withTenant (tenantId ctx)) ∧
      (processTraces ctx td).input = (processTraces ctx td).returned ∧
      (processTraces ctx td).logs = [] := by
  have h2 : ¬ goLen (strings.Join ((client.FromContext ctx).metadata.Get TenetHeaderKey) ";") = 0 :=
    fun e => h ((goLen_eq_zero_iff _).mp e)
  have hfree : ∀ rs ∈ td.resourceSpans, rs.resource.attributes.Get TenetAttrKey = none := by
    intro rs hrs
    exact (Map.get_eq_none_iff _ _).mpr
      (hf (rs.resource.attributes, rs.scopeSpans) (List.mem_map_of_mem _ hrs))
  have hl := stampLoop_free (fun rs : ResourceSpans S => rs.resource.attributes)
    (fun rs m => ⟨⟨m⟩, rs.scopeSpans⟩)
    (strings.Join ((client.FromContext ctx).metadata.Get TenetHeaderKey) ";")
    td.resourceSpans hfree
  simp only [processTraces, h2, if_false, rtsLoop_eq_stampLoop, hl, and_true, true_and]
  simp [Traces.groups, List.map_map, Function.comp_def, withTenant, tenantId, tenantValues]

theorem processTraces_of_conflict {S : Type} (ctx : Context) (td : Traces S)
    (h : tenantId ctx ≠ "") (pre post : List (ResourceSpans S)) (g : ResourceSpans S)
    (v : Value) (hsplit : td.resourceSpans = pre ++ g :: post)
    (hpre : ∀ x ∈ pre, x.resource.attributes.Get TenetAttrKey = none)
    (hg : g.resource.attributes.Get TenetAttrKey = some v) :
    (processTraces ctx td).err =
        some (fmt.Errorf conflictingTenantFormat [FmtArg.str TenetAttrKey, FmtArg.value v]) ∧
      (processTraces ctx td).returned = NewTraces ∧
      (processTraces ctx td).input.resourceSpans =
        pre.map (fun x => ⟨⟨x.resource.attributes ++
          [(TenetAttrKey, Value.str (tenantId ctx))]⟩, x.scopeSpans⟩) ++ g :: post ∧
      (processTraces ctx td).logs =
        [⟨Level.warn,
          "invalid resource in span already includes the tenant information, dropping",
          [⟨TenetAttrKey, tenantId ctx⟩]⟩] := by
  have h2 : ¬ goLen (strings.Join ((client.FromContext ctx).metadata.Get TenetHeaderKey) ";") = 0 :=
    fun e => h ((goLen_eq_zero_iff _).mp e)
  have hl := stampLoop_conflict (fun rs : ResourceSpans S => rs.resource.attributes)
    (fun rs m => ⟨⟨m⟩, rs.scopeSpans⟩)
    (strings.Join ((client.FromContext ctx).metadata.Get TenetHeaderKey) ";")
    pre post g v hpre hg
  simp only [processTraces, h2, if_false, rtsLoop_eq_stampLoop, hsplit, hl, and_true, true_and]
  simp [tenantId, tenantValues]

theorem processTraces_conflicting {S : Type} (ctx : Context) (td : Traces S)
    (h : tenantId ctx ≠ "") (hc : Conflicting td.groups) :
    IsConflictingTenant (processTraces ctx td).err ∧
      (processTraces ctx td).returned = NewTraces := by
  have hex : ∃ rs ∈ td.resourceSpans, rs.resource.attributes.HasKey TenetAttrKey := by
    obtain ⟨g, hg, hk⟩ := hc
    obtain ⟨rs, hrs, rfl⟩ := List.mem_map.mp hg
    exact ⟨rs, hrs, hk⟩
  obtain ⟨pre, g, post, v, hsplit, hpre, hg⟩ :=
    exists_first_conflict (fun rs : ResourceSpans S => rs.resource.attributes) _ hex
  obtain ⟨he, hr, _, _⟩ := processTraces_of_conflict ctx td h pre post g v hsplit hpre hg
  exact ⟨⟨v, he⟩, hr⟩

/-! ## processMetrics -/

theorem processMetrics_of_empty {S : Type} (ctx : Context) (md : Metrics S)
    (h : tenantId ctx = "") :
    (processMetrics ctx md).err = some (fmt.Errorf missingTenantFormat []) ∧
      (processMetrics ctx md).returned = NewMetrics ∧
      (processMetrics ctx md).input = md ∧
      (processMetrics ctx md).logs =
        [⟨Level.error, "Tenant metadata not present on request",
          [⟨"metadata.key", TenetHeaderKey⟩]⟩] := by
  have h2 : goLen (strings.Join ((client.FromContext ctx).metadata.Get TenetHeaderKey) ";") = 0 :=
    (goLen_eq_zero_iff _).mpr h
  simp only [processMetrics, h2, if_true, and_self]

theorem processMetrics_of_free {S : Type} (ctx : Context) (md : Metrics S)
    (h : tenantId ctx ≠ "") (hf : Free md.groups) :
    (processMetrics ctx md).err = none ∧
      (processMetrics ctx md).returned.groups = md.groups.map (withTenant (tenantId ctx)) ∧
      (processMetrics ctx md).input = (processMetrics ctx md).returned ∧
      (processMetrics ctx md).logs = [] := by
  have h2 : ¬ goLen (strings.Join ((client.FromContext ctx).metadata.Get TenetHeaderKey) ";") = 0 :=
    fun e => h ((goLen_eq_zero_iff _).mp e)
  have hfree : ∀ rs ∈ md.resourceMetrics, rs.resource.attributes.Get TenetAttrKey = none := by
    intro rs hrs
    exact (Map.get_eq_none_iff _ _).mpr
      (hf (rs.resource.attributes, rs.scopeMetrics) (List.mem_map_of_mem _ hrs))
  have hl := stampLoop_free (fun rs : ResourceMetrics S => rs.resource.attributes)
    (fun rs m => ⟨⟨m⟩, rs.scopeMetrics⟩)
    (strings.Join ((client.FromContext ctx).metadata.Get TenetHeaderKey) ";")
    md.resourceMetrics hfree
  simp only [processMetrics, h2, if_false, rmsLoop_eq_stampLoop, hl, and_true, true_and]
  simp [Metrics.groups, List.map_map, Function.comp_def, withTenant, tenantId, tenantValues]

theorem processMetrics_of_conflict {S : Type} (ctx : Context) (md : Metrics S)
    (h : tenantId ctx ≠ "") (pre post : List (ResourceMetrics S)) (g : ResourceMetrics S)
    (v : Value) (hsplit : md.resourceMetrics = pre ++ g :: post)
    (hpre : ∀ x ∈ pre, x.resource.attributes.Get TenetAttrKey = none)
    (hg : g.resource.attributes.Get TenetAttrKey = some v) :
    (processMetrics ctx md).err =
        some (fmt.Errorf conflictingTenantFormat [FmtArg.str TenetAttrKey, FmtArg.value v]) ∧
      (processMetrics ctx md).returned = NewMetrics ∧
      (processMetrics ctx md).input.resourceMetrics =
        pre.map (fun x => ⟨⟨x.resource.attributes ++
          [(TenetAttrKey, Value.str (tenantId ctx))]⟩, x.scopeMetrics⟩) ++ g :: post ∧
      (processMetrics ctx md).logs =
        [⟨Level.warn,
          "invalid resource in metric already includes the tenant information, dropping",
          [⟨TenetAttrKey, tenantId ctx⟩]⟩] := by
  have h2 : ¬ goLen (strings.Join ((client.FromContext ctx).metadata.Get TenetHeaderKey) ";") = 0 :=
    fun e => h ((goLen_eq_zero_iff _).mp e)
  have hl := stampLoop_conflict (fun rs : ResourceMetrics S => rs.resource.attributes)
    (fun rs m => ⟨⟨m⟩, rs.scopeMetrics⟩)
    (strings.Join ((client.FromContext ctx).metadata.Get TenetHeaderKey) ";")
    pre post g v hpre hg
  simp only [processMetrics, h2, if_false, rmsLoop_eq_stampLoop, hsplit, hl, and_true, true_and]
  simp [tenantId, tenantValues]

theorem processMetrics_conflicting {S : Type} (ctx : Context) (md : Metrics S)
    (h : tenantId ctx ≠ "") (hc : Conflicting md.groups) :
    IsConflictingTenant (processMetrics ctx md).err ∧
      (processMetrics ctx md).returned = NewMetrics := by
  have hex : ∃ rs ∈ md.resourceMetrics, rs.resource.attributes.HasKey TenetAttrKey := by
    obtain ⟨g, hg, hk⟩ := hc
    obtain ⟨rs, hrs, rfl⟩ := List.mem_map.mp hg
    exact ⟨rs, hrs, hk⟩
  obtain ⟨pre, g, post, v, hsplit, hpre, hg⟩ :=
    exists_first_conflict (fun rs : ResourceMetrics S => rs.resource.attributes) _ hex
  obtain ⟨he, hr, _, _⟩ := processMetrics_of_conflict ctx md h pre post g v hsplit hpre hg
  exact ⟨⟨v, he⟩, hr⟩

/-! ## processLogs -/

theorem processLogs_of_empty {S : Type} (ctx : Context) (ld : Logs S)
    (h : tenantId ctx = "") :
    (processLogs ctx ld).err = some (fmt.Errorf missingTenantFormat []) ∧
      (processLogs ctx ld).returned = NewLogs ∧
      (processLogs ctx ld).input = ld ∧
      (processLogs ctx ld).logs =
        [⟨Level.error, "Tenant metadata not present on request",
          [⟨"metadata.key", TenetHeaderKey⟩]⟩] := by
  have h2 : goLen (strings.Join ((client.FromContext ctx).metadata.Get TenetHeaderKey) ";") = 0 :=
    (goLen_eq_zero_iff _).mpr h
  simp only [processLogs, h2, if_true, and_self]

theorem processLogs_of_free {S : Type} (ctx : Context) (ld : Logs S)
    (h : tenantId ctx ≠ "") (hf : Free ld.groups) :
    (processLogs ctx ld).err = none ∧
      (processLogs ctx ld).returned.groups = ld.groups.map (withTenant (tenantId ctx)) ∧
      (processLogs ctx ld).input = (processLogs ctx ld).returned ∧
      (processLogs ctx ld).logs = [] := by
  have h2 : ¬ goLen (strings.Join ((client.FromContext ctx).metadata.Get TenetHeaderKey) ";") = 0 :=
    fun e => h ((goLen_eq_zero_iff _).mp e)
  have hfree : ∀ rs ∈ ld.resourceLogs, rs.resource.attributes.Get TenetAttrKey = none := by
    intro rs hrs
    exact (Map.get_eq_none_iff _ _).mpr
      (hf (rs.resource.attributes, rs.scopeLogs) (List.mem_map_of_mem _ hrs))
  have hl := stampLoop_free (fun rs : ResourceLogs S => rs.resource.attributes)
    (fun rs m => ⟨⟨m⟩, rs.scopeLogs⟩)
    (strings.Join ((client.FromContext ctx).metadata.Get TenetHeaderKey) ";")
    ld.resourceLogs hfree
  simp only [processLogs, h2, if_false, rlsLoop_eq_stampLoop, hl, and_true, true_and]
  simp [Logs.groups, List.map_map, Function.comp_def, withTenant, tenantId, tenantValues]

theorem processLogs_of_conflict {S : Type} (ctx : Context) (ld : Logs S)
    (h : tenantId ctx ≠ "") (pre post : List (ResourceLogs S)) (g : ResourceLogs S)
    (v : Value) (hsplit : ld.resourceLogs = pre ++ g :: post)
    (hpre : ∀ x ∈ pre, x.resource.attributes.Get TenetAttrKey = none)
    (hg : g.resource.attributes.Get TenetAttrKey = some v) :
    (processLogs ctx ld).err =
        some (fmt.Errorf conflictingTenantFormat [FmtArg.str TenetAttrKey, FmtArg.value v]) ∧
      (processLogs ctx ld).returned = NewLogs ∧
      (processLogs ctx ld).input.resourceLogs =
        pre.map (fun x => ⟨⟨x.resource.attributes ++
          [(TenetAttrKey, Value.str (tenantId ctx))]⟩, x.scopeLogs⟩) ++ g :: post ∧
      (processLogs ctx ld).logs =
        [⟨Level.warn,
          "invalid resource in log already includes the tenant information, dropping",
          [⟨TenetAttrKey, tenantId ctx⟩]⟩] := by
  have h2 : ¬ goLen (strings.Join ((client.FromContext ctx).metadata.Get TenetHeaderKey) ";") = 0 :=
    fun e => h ((goLen_eq_zero_iff _).mp e)
  have hl := stampLoop_conflict (fun rs : ResourceLogs S => rs.resource.attributes)
    (fun rs m => ⟨⟨m⟩, rs.scopeLogs⟩)
    (strings.Join ((client.FromContext ctx).metadata.Get TenetHeaderKey) ";")
    pre post g v hpre hg
  simp only [processLogs, h2, if_false, rlsLoop_eq_stampLoop, hsplit, hl, and_true, true_and]
  simp [tenantId, tenantValues]

theorem processLogs_conflicting {S : Type} (ctx : Context) (ld : Logs S)
    (h : tenantId ctx ≠ "") (hc : Conflicting ld.groups) :
    IsConflictingTenant (processLogs ctx ld).err ∧
      (processLogs ctx ld).returned = NewLogs := by
  have hex : ∃ rs ∈ ld.resourceLogs, rs.resource.attributes.HasKey TenetAttrKey := by
    obtain ⟨g, hg, hk⟩ := hc
    obtain ⟨rs, hrs, rfl⟩ := List.mem_map.mp hg
    exact ⟨rs, hrs, hk⟩
  obtain ⟨pre, g, post, v, hsplit, hpre, hg⟩ :=
    exists_first_conflict (fun rs : ResourceLogs S => rs.resource.attributes) _ hex
  obtain ⟨he, hr, _, _⟩ := processLogs_of_conflict ctx ld h pre post g v hsplit hpre hg
  exact ⟨⟨v, he⟩, hr⟩

/-! ## The three outcomes of a call -/

theorem free_iff_not_conflicting {P : Type} (gs : List (Map × P)) :
    Free gs ↔ ¬ Conflicting gs := by
  unfold Free Conflicting
  constructor
  · rintro h ⟨g, hg, hk⟩
    exact h g hg hk
  · intro h g hg hk
    exact h ⟨g, hg, hk⟩

theorem processTraces_cases {S : Type} (ctx : Context) (td : Traces S) :
    (tenantId ctx = "" ∧ IsMissingTenant (processTraces ctx td).err ∧
        (processTraces ctx td).returned = NewTraces) ∨
      (tenantId ctx ≠ "" ∧ Conflicting td.groups ∧
        IsConflictingTenant (processTraces ctx td).err ∧
        (processTraces ctx td).returned = NewTraces) ∨
      (tenantId ctx ≠ "" ∧ ¬ Conflicting td.groups ∧ (processTraces ctx td).err = none ∧
        (processTraces ctx td).returned.groups = td.groups.map (withTenant (tenantId ctx))) := by
  by_cases h : tenantId ctx = ""
  · obtain ⟨he, hr, _, _⟩ := processTraces_of_empty ctx td h
    exact Or.inl ⟨h, he, hr⟩
  · by_cases hc : Conflicting td.groups
    · obtain ⟨he, hr⟩ := processTraces_conflicting ctx td h hc
      exact Or.inr (Or.inl ⟨h, hc, he, hr⟩)
    · obtain ⟨he, hr, _, _⟩ :=
        processTraces_of_free ctx td h ((free_iff_not_conflicting _).mpr hc)
      exact Or.inr (Or.inr ⟨h, hc, he, hr⟩)

theorem processMetrics_cases {M : Type} (ctx : Context) (md : Metrics M) :
    (tenantId ctx = "" ∧ IsMissingTenant (processMetrics ctx md).err ∧
        (processMetrics ctx md).returned = NewMetrics) ∨
      (tenantId ctx ≠ "" ∧ Conflicting md.groups ∧
        IsConflictingTenant (processMetrics ctx md).err ∧
        (processMetrics ctx md).returned = NewMetrics) ∨
      (tenantId ctx ≠ "" ∧ ¬ Conflicting md.groups ∧ (processMetrics ctx md).err = none ∧
        (processMetrics ctx md).returned.groups = md.groups.map (withTenant (tenantId ctx))) := by
  by_cases h : tenantId ctx = ""
  · obtain ⟨he, hr, _, _⟩ := processMetrics_of_empty ctx md h
    exact Or.inl ⟨h, he, hr⟩
  · by_cases hc : Conflicting md.groups
    · obtain ⟨he, hr⟩ := processMetrics_conflicting ctx md h hc
      exact Or.inr (Or.inl ⟨h, hc, he, hr⟩)
    · obtain ⟨he, hr, _, _⟩ :=
        processMetrics_of_free ctx md h ((free_iff_not_conflicting _).mpr hc)
      exact Or.inr (Or.inr ⟨h, hc, he, hr⟩)

theorem processLogs_cases {L : Type} (ctx : Context) (ld : Logs L) :
    (tenantId ctx = "" ∧ IsMissingTenant (processLogs ctx ld).err ∧
        (processLogs ctx ld).returned = NewLogs) ∨
      (tenantId ctx ≠ "" ∧ Conflicting ld.groups ∧
        IsConflictingTenant (processLogs ctx ld).err ∧
        (processLogs ctx ld).returned = NewLogs) ∨
      (tenantId ctx ≠ "" ∧ ¬ Conflicting ld.groups ∧ (processLogs ctx ld).err = none ∧
        (processLogs ctx ld).returned.groups = ld.groups.map (withTenant (tenantId ctx))) := by
  by_cases h : tenantId ctx = ""
  · obtain ⟨he, hr, _, _⟩ := processLogs_of_empty ctx ld h
    exact Or.inl ⟨h, he, hr⟩
  · by_cases hc : Conflicting ld.groups
    · obtain ⟨he, hr⟩ := processLogs_conflicting ctx ld h hc
      exact Or.inr (Or.inl ⟨h, hc, he, hr⟩)
    · obtain ⟨he, hr, _, _⟩ :=
        processLogs_of_free ctx ld h ((free_iff_not_conflicting _).mpr hc)
      exact Or.inr (Or.inr ⟨h, hc, he, hr⟩)

theorem err_iff_of_cases (id : String) (e : Option GoError) (conf : Prop)
    (h : (id = "" ∧ IsMissingTenant e) ∨ (id ≠ "" ∧ conf ∧ IsConflictingTenant e) ∨
      (id ≠ "" ∧ ¬ conf ∧ e = none)) :
    (IsMissingTenant e ↔ id = "") ∧ (e ≠ none ↔ id = "" ∨ conf) := by
  rcases h with ⟨h1, h2⟩ | ⟨h1, h2, h3⟩ | ⟨h1, h2, h3⟩
  · refine ⟨⟨fun _ => h1, fun _ => h2⟩, ⟨fun _ => Or.inl h1, fun _ => ?_⟩⟩
    rw [h2]
    simp
  · refine ⟨⟨fun hm => absurd h3 (not_conflicting_of_missing e hm), fun he => absurd he h1⟩,
      ⟨fun _ => Or.inr h2, fun _ => ?_⟩⟩
    obtain ⟨v, hv⟩ := h3
    rw [hv]
    simp
  · subst h3
    refine ⟨⟨fun hm => absurd hm not_missing_none, fun he => absurd he h1⟩,
      ⟨fun hn => absurd rfl hn, fun ho => ?_⟩⟩
    rcases ho with ho | ho
    · exact absurd ho h1
    · exact absurd ho h2

theorem tenantId_eq_empty_of (ctx : Context)
    (h : tenantValues ctx = [] ∨ tenantValues ctx = [""]) : tenantId ctx = "" := by
  unfold tenantId
  rw [join_eq_empty_iff]
  exact h

/-! ## The operations on the attribute maps alone -/

theorem stampLoop_attrs {G : Type} (attrs : G → Map) (withAttrs : G → Map → G)
    (hget : ∀ g m, attrs (withAttrs g m) = m) (orgVal : String) (l : List G) :
    ((stampLoop attrs withAttrs orgVal l).1.map attrs, (stampLoop attrs withAttrs orgVal l).2) =
      stampLoop (fun m : Map => m) (fun _ m => m) orgVal (l.map attrs) := by
  induction l with
  | nil => rfl
  | cons g rest ih =>
    cases hg : (attrs g).Get TenetAttrKey with
    | some v => simp only [stampLoop, hg, List.map_cons]
    | none =>
      have h1 := congrArg Prod.fst ih
      have h2 := congrArg Prod.snd ih
      simp only at h1 h2
      simp only [stampLoop, hg, List.map_cons, hget, h1, h2]

theorem processTraces_attrs {S : Type} (ctx : Context) (td : Traces S) :
    ((processTraces ctx td).err, (processTraces ctx td).returned.groups.map Prod.fst,
        (processTraces ctx td).input.groups.map Prod.fst) =
      attrOutcome ctx (td.groups.map Prod.fst) := by
  have hmap : td.groups.map Prod.fst =
      td.resourceSpans.map (fun rs => rs.resource.attributes) := by
    simp [Traces.groups, List.map_map, Function.comp_def]
  by_cases h : tenantId ctx = ""
  · obtain ⟨he, hr, hi, _⟩ := processTraces_of_empty ctx td h
    rw [he, hr, hi]
    simp [attrOutcome, h, NewTraces, Traces.groups]
  · have h2 : ¬ goLen (strings.Join ((client.FromContext ctx).metadata.Get TenetHeaderKey) ";")
        = 0 := fun e => h ((goLen_eq_zero_iff _).mp e)
    have hl := stampLoop_attrs (fun rs : ResourceSpans S => rs.resource.attributes)
      (fun rs m => ⟨⟨m⟩, rs.scopeSpans⟩) (fun _ _ => rfl) (tenantId ctx) td.resourceSpans
    rw [hmap]
    simp only [attrOutcome, h, if_false]
    rw [← hl]
    simp only [processTraces, h2, if_false, rtsLoop_eq_stampLoop]
    have hid : strings.Join ((client.FromContext ctx).metadata.Get TenetHeaderKey) ";" =
      tenantId ctx := rfl
    rw [hid]
    cases hs : (stampLoop (fun rs : ResourceSpans S => rs.resource.attributes)
      (fun rs m => ⟨⟨m⟩, rs.scopeSpans⟩) (tenantId ctx) td.resourceSpans) with
    | mk rts r =>
      cases r with
      | some v => simp [Traces.groups, NewTraces, List.map_map, Function.comp_def]
      | none => simp [Traces.groups, List.map_map, Function.comp_def]

/-! ## Success, refusal, and the state left behind -/

theorem conflicting_map_withTenant {P : Type} (id : String) (gs : List (Map × P))
    (h : gs ≠ []) : Conflicting (gs.map (withTenant id)) := by
  cases gs with
  | nil => exact absurd rfl h
  | cons g rest =>
    refine ⟨withTenant id g, by simp, ?_⟩
    simp [Map.HasKey, withTenant]

theorem get_of_mem_map_withTenant {P : Type} (id : String) (gs : List (Map × P))
    (hf : Free gs) (g : Map × P) (hg : g ∈ gs.map (withTenant id)) :
    g.1.Get TenetAttrKey = some (Value.str id) := by
  obtain ⟨g0, hg0, rfl⟩ := List.mem_map.mp hg
  exact Map.get_append_new g0.1 TenetAttrKey _ ((Map.get_eq_none_iff _ _).mpr (hf g0 hg0))

theorem prefix_and_rest_of_append {A : Type} (k : Nat) (pre post out inp : List A)
    (hlen : pre.length = k) (hout : out = pre ++ post) (hinp : inp.drop k = post) :
    (∀ i, i < k → ∀ a, out[i]? = some a → a ∈ pre) ∧
      (∀ i, k ≤ i → out[i]? = inp[i]?) := by
  subst hout
  constructor
  · intro i hi a ha
    rw [List.getElem?_append_left (by omega)] at ha
    exact List.mem_iff_getElem?.mpr ⟨i, ha⟩
  · intro i hi
    rw [List.getElem?_append_right (by omega), hlen, ← hinp, List.getElem?_drop]
    congr 1
    omega

theorem processTraces_of_success {S : Type} (ctx : Context) (td : Traces S)
    (h : (processTraces ctx td).err = none) :
    tenantId ctx ≠ "" ∧ Free td.groups ∧
      (processTraces ctx td).returned.groups = td.groups.map (withTenant (tenantId ctx)) := by
  rcases processTraces_cases ctx td with ⟨_, b, _⟩ | ⟨_, _, c, _⟩ | ⟨a, b, _, d⟩
  · rw [h] at b
    exact absurd b not_missing_none
  · rw [h] at c
    exact absurd c not_conflicting_none
  · exact ⟨a, (free_iff_not_conflicting _).mpr b, d⟩

theorem processTraces_of_conflicting_err {S : Type} (ctx : Context) (td : Traces S)
    (h : IsConflictingTenant (processTraces ctx td).err) :
    tenantId ctx ≠ "" ∧ Conflicting td.groups := by
  rcases processTraces_cases ctx td with ⟨_, b, _⟩ | ⟨a, b, _, _⟩ | ⟨_, _, c, _⟩
  · exact absurd h (not_conflicting_of_missing _ b)
  · exact ⟨a, b⟩
  · rw [c] at h
    exact absurd h not_conflicting_none

theorem processTraces_conflict_logs {S : Type} (ctx : Context) (td : Traces S)
    (h : tenantId ctx ≠ "") (hc : Conflicting td.groups) :
    (processTraces ctx td).logs =
      [⟨Level.warn,
        "invalid resource in span already includes the tenant information, dropping",
        [⟨TenetAttrKey, tenantId ctx⟩]⟩] := by
  have hex : ∃ rs ∈ td.resourceSpans, rs.resource.attributes.HasKey TenetAttrKey := by
    obtain ⟨g, hg, hk⟩ := hc
    obtain ⟨rs, hrs, rfl⟩ := List.mem_map.mp hg
    exact ⟨rs, hrs, hk⟩
  obtain ⟨pre, g, post, v, hsplit, hpre, hg⟩ :=
    exists_first_conflict (fun rs : ResourceSpans S => rs.resource.attributes) _ hex
  exact (processTraces_of_conflict ctx td h pre post g v hsplit hpre hg).2.2.2

theorem processTraces_at_index {S : Type} (ctx : Context) (td : Traces S) (k : Nat)
    (h : tenantId ctx ≠ "") (hfree : Free (td.groups.take k))
    (hk : ∃ g, td.groups[k]? = some g ∧ g.1.HasKey TenetAttrKey) :
    IsConflictingTenant (processTraces ctx td).err ∧
      (processTraces ctx td).returned = NewTraces ∧
      (processTraces ctx td).input.groups =
        (td.groups.take k).map (withTenant (tenantId ctx)) ++ td.groups.drop k := by
  obtain ⟨g, hg, hkey⟩ := hk
  unfold Traces.groups at hg hfree
  rw [List.getElem?_map] at hg
  obtain ⟨rs, hrs, rfl⟩ := Option.map_eq_some'.mp hg
  obtain ⟨v, hv⟩ := (Map.hasKey_iff_get _ _).mp hkey
  have hpre : ∀ x ∈ td.resourceSpans.take k, x.resource.attributes.Get TenetAttrKey = none := by
    intro x hx
    apply (Map.get_eq_none_iff _ _).mpr
    apply hfree (x.resource.attributes, x.scopeSpans)
    rw [← List.map_take]
    exact List.mem_map_of_mem _ hx
  obtain ⟨hlt, hget⟩ := List.getElem?_eq_some_iff.mp hrs
  have hdrop : td.resourceSpans.drop k = rs :: td.resourceSpans.drop (k + 1) := by
    rw [← hget]
    exact List.drop_eq_getElem_cons hlt
  have hsplit : td.resourceSpans =
      td.resourceSpans.take k ++ rs :: td.resourceSpans.drop (k + 1) := by
    rw [← hdrop]
    exact (List.take_append_drop k td.resourceSpans).symm
  obtain ⟨he, hr, hi, _⟩ := processTraces_of_conflict ctx td h _ _ rs v hsplit hpre hv
  refine ⟨⟨v, he⟩, hr, ?_⟩
  unfold Traces.groups
  rw [hi, ← hdrop]
  simp [List.map_take, List.map_drop, List.map_map, Function.comp_def, withTenant]

theorem processMetrics_attrs {M : Type} (ctx : Context) (md : Metrics M) :
    ((processMetrics ctx md).err, (processMetrics ctx md).returned.groups.map Prod.fst,
        (processMetrics ctx md).input.groups.map Prod.fst) =
      attrOutcome ctx (md.groups.map Prod.fst) := by
  have hmap : md.groups.map Prod.fst =
      md.resourceMetrics.map (fun rm => rm.resource.attributes) := by
    simp [Metrics.groups, List.map_map, Function.comp_def]
  by_cases h : tenantId ctx = ""
  · obtain ⟨he, hr, hi, _⟩ := processMetrics_of_empty ctx md h
    rw [he, hr, hi]
    simp [attrOutcome, h, NewMetrics, Metrics.groups]
  · have h2 : ¬ goLen (strings.Join ((client.FromContext ctx).metadata.Get TenetHeaderKey) ";")
        = 0 := fun e => h ((goLen_eq_zero_iff _).mp e)
    have hl := stampLoop_attrs (fun rm : ResourceMetrics M => rm.resource.attributes)
      (fun rm m => ⟨⟨m⟩, rm.scopeMetrics⟩) (fun _ _ => rfl) (tenantId ctx) md.resourceMetrics
    rw [hmap]
    simp only [attrOutcome, h, if_false]
    rw [← hl]
    simp only [processMetrics, h2, if_false, rmsLoop_eq_stampLoop]
    have hid : strings.Join ((client.FromContext ctx).metadata.Get TenetHeaderKey) ";" =
      tenantId ctx := rfl
    rw [hid]
    cases hs : (stampLoop (fun rm : ResourceMetrics M => rm.resource.attributes)
      (fun rm m => ⟨⟨m⟩, rm.scopeMetrics⟩) (tenantId ctx) md.resourceMetrics) with
    | mk rms r =>
      cases r with
      | some v => simp [Metrics.groups, NewMetrics, List.map_map, Function.comp_def]
      | none => simp [Metrics.groups, List.map_map, Function.comp_def]

theorem processMetrics_of_success {M : Type} (ctx : Context) (md : Metrics M)
    (h : (processMetrics ctx md).err = none) :
    tenantId ctx ≠ "" ∧ Free md.groups ∧
      (processMetrics ctx md).returned.groups = md.groups.map (withTenant (tenantId ctx)) := by
  rcases processMetrics_cases ctx md with ⟨_, b, _⟩ | ⟨_, _, c, _⟩ | ⟨a, b, _, d⟩
  · rw [h] at b
    exact absurd b not_missing_none
  · rw [h] at c
    exact absurd c not_conflicting_none
  · exact ⟨a, (free_iff_not_conflicting _).mpr b, d⟩

theorem processMetrics_of_conflicting_err {M : Type} (ctx : Context) (md : Metrics M)
    (h : IsConflictingTenant (processMetrics ctx md).err) :
    tenantId ctx ≠ "" ∧ Conflicting md.groups := by
  rcases processMetrics_cases ctx md with ⟨_, b, _⟩ | ⟨a, b, _, _⟩ | ⟨_, _, c, _⟩
  · exact absurd h (not_conflicting_of_missing _ b)
  · exact ⟨a, b⟩
  · rw [c] at h
    exact absurd h not_conflicting_none

theorem processMetrics_conflict_logs {M : Type} (ctx : Context) (md : Metrics M)
    (h : tenantId ctx ≠ "") (hc : Conflicting md.groups) :
    (processMetrics ctx md).logs =
      [⟨Level.warn,
        "invalid resource in metric already includes the tenant information, dropping",
        [⟨TenetAttrKey, tenantId ctx⟩]⟩] := by
  have hex : ∃ rm ∈ md.resourceMetrics, rm.resource.attributes.HasKey TenetAttrKey := by
    obtain ⟨g, hg, hk⟩ := hc
    obtain ⟨rm, hrs, rfl⟩ := List.mem_map.mp hg
    exact ⟨rm, hrs, hk⟩
  obtain ⟨pre, g, post, v, hsplit, hpre, hg⟩ :=
    exists_first_conflict (fun rm : ResourceMetrics M => rm.resource.attributes) _ hex
  exact (processMetrics_of_conflict ctx md h pre post g v hsplit hpre hg).2.2.2

theorem processMetrics_at_index {M : Type} (ctx : Context) (md : Metrics M) (k : Nat)
    (h : tenantId ctx ≠ "") (hfree : Free (md.groups.take k))
    (hk : ∃ g, md.groups[k]? = some g ∧ g.1.HasKey TenetAttrKey) :
    IsConflictingTenant (processMetrics ctx md).err ∧
      (processMetrics ctx md).returned = NewMetrics ∧
      (processMetrics ctx md).input.groups =
        (md.groups.take k).map (withTenant (tenantId ctx)) ++ md.groups.drop k := by
  obtain ⟨g, hg, hkey⟩ := hk
  unfold Metrics.groups at hg hfree
  rw [List.getElem?_map] at hg
  obtain ⟨rm, hrs, rfl⟩ := Option.map_eq_some'.mp hg
  obtain ⟨v, hv⟩ := (Map.hasKey_iff_get _ _).mp hkey
  have hpre : ∀ x ∈ md.resourceMetrics.take k, x.resource.attributes.Get TenetAttrKey = none := by
    intro x hx
    apply (Map.get_eq_none_iff _ _).mpr
    apply hfree (x.resource.attributes, x.scopeMetrics)
    rw [← List.map_take]
    exact List.mem_map_of_mem _ hx
  obtain ⟨hlt, hget⟩ := List.getElem?_eq_some_iff.mp hrs
  have hdrop : md.resourceMetrics.drop k = rm :: md.resourceMetrics.drop (k + 1) := by
    rw [← hget]
    exact List.drop_eq_getElem_cons hlt
  have hsplit : md.resourceMetrics =
      md.resourceMetrics.take k ++ rm :: md.resourceMetrics.drop (k + 1) := by
    rw [← hdrop]
    exact (List.take_append_drop k md.resourceMetrics).symm
  obtain ⟨he, hr, hi, _⟩ := processMetrics_of_conflict ctx md h _ _ rm v hsplit hpre hv
  refine ⟨⟨v, he⟩, hr, ?_⟩
  unfold Metrics.groups
  rw [hi, ← hdrop]
  simp [List.map_take, List.map_drop, List.map_map, Function.comp_def, withTenant]

theorem processLogs_attrs {L : Type} (ctx : Context) (ld : Logs L) :
    ((processLogs ctx ld).err, (processLogs ctx ld).returned.groups.map Prod.fst,
        (processLogs ctx ld).input.groups.map Prod.fst) =
      attrOutcome ctx (ld.groups.map Prod.fst) := by
  have hmap : ld.groups.map Prod.fst =
      ld.resourceLogs.map (fun rl => rl.resource.attributes) := by
    simp [Logs.groups, List.map_map, Function.comp_def]
  by_cases h : tenantId ctx = ""
  · obtain ⟨he, hr, hi, _⟩ := processLogs_of_empty ctx ld h
    rw [he, hr, hi]
    simp [attrOutcome, h, NewLogs, Logs.groups]
  · have h2 : ¬ goLen (strings.Join ((client.FromContext ctx).metadata.Get TenetHeaderKey) ";")
        = 0 := fun e => h ((goLen_eq_zero_iff _).mp e)
    have hl := stampLoop_attrs (fun rl : ResourceLogs L => rl.resource.attributes)
      (fun rl m => ⟨⟨m⟩, rl.scopeLogs⟩) (fun _ _ => rfl) (tenantId ctx) ld.resourceLogs
    rw [hmap]
    simp only [attrOutcome, h, if_false]
    rw [← hl]
    simp only [processLogs, h2, if_false, rlsLoop_eq_stampLoop]
    have hid : strings.Join ((client.FromContext ctx).metadata.Get TenetHeaderKey) ";" =
      tenantId ctx := rfl
    rw [hid]
    cases hs : (stampLoop (fun rl : ResourceLogs L => rl.resource.attributes)
      (fun rl m => ⟨⟨m⟩, rl.scopeLogs⟩) (tenantId ctx) ld.resourceLogs) with
    | mk rls r =>
      cases r with
      | some v => simp [Logs.groups, NewLogs, List.map_map, Function.comp_def]
      | none => simp [Logs.groups, List.map_map, Function.comp_def]

theorem processLogs_of_success {L : Type} (ctx : Context) (ld : Logs L)
    (h : (processLogs ctx ld).err = none) :
    tenantId ctx ≠ "" ∧ Free ld.groups ∧
      (processLogs ctx ld).returned.groups = ld.groups.map (withTenant (tenantId ctx)) := by
  rcases processLogs_cases ctx ld with ⟨_, b, _⟩ | ⟨_, _, c, _⟩ | ⟨a, b, _, d⟩
  · rw [h] at b
    exact absurd b not_missing_none
  · rw [h] at c
    exact absurd c not_conflicting_none
  · exact ⟨a, (free_iff_not_conflicting _).mpr b, d⟩

theorem processLogs_of_conflicting_err {L : Type} (ctx : Context) (ld : Logs L)
    (h : IsConflictingTenant (processLogs ctx ld).err) :
    tenantId ctx ≠ "" ∧ Conflicting ld.groups := by
  rcases processLogs_cases ctx ld with ⟨_, b, _⟩ | ⟨a, b, _, _⟩ | ⟨_, _, c, _⟩
  · exact absurd h (not_conflicting_of_missing _ b)
  · exact ⟨a, b⟩
  · rw [c] at h
    exact absurd h not_conflicting_none

theorem processLogs_conflict_logs {L : Type} (ctx : Context) (ld : Logs L)
    (h : tenantId ctx ≠ "") (hc : Conflicting ld.groups) :
    (processLogs ctx ld).logs =
      [⟨Level.warn,
        "invalid resource in log already includes the tenant information, dropping",
        [⟨TenetAttrKey, tenantId ctx⟩]⟩] := by
  have hex : ∃ rl ∈ ld.resourceLogs, rl.resource.attributes.HasKey TenetAttrKey := by
    obtain ⟨g, hg, hk⟩ := hc
    obtain ⟨rl, hrs, rfl⟩ := List.mem_map.mp hg
    exact ⟨rl, hrs, hk⟩
  obtain ⟨pre, g, post, v, hsplit, hpre, hg⟩ :=
    exists_first_conflict (fun rl : ResourceLogs L => rl.resource.attributes) _ hex
  exact (processLogs_of_conflict ctx ld h pre post g v hsplit hpre hg).2.2.2

theorem processLogs_at_index {L : Type} (ctx : Context) (ld : Logs L) (k : Nat)
    (h : tenantId ctx ≠ "") (hfree : Free (ld.groups.take k))
    (hk : ∃ g, ld.groups[k]? = some g ∧ g.1.HasKey TenetAttrKey) :
    IsConflictingTenant (processLogs ctx ld).err ∧
      (processLogs ctx ld).returned = NewLogs ∧
      (processLogs ctx ld).input.groups =
        (ld.groups.take k).map (withTenant (tenantId ctx)) ++ ld.groups.drop k := by
  obtain ⟨g, hg, hkey⟩ := hk
  unfold Logs.groups at hg hfree
  rw [List.getElem?_map] at hg
  obtain ⟨rl, hrs, rfl⟩ := Option.map_eq_some'.mp hg
  obtain ⟨v, hv⟩ := (Map.hasKey_iff_get _ _).mp hkey
  have hpre : ∀ x ∈ ld.resourceLogs.take k, x.resource.attributes.Get TenetAttrKey = none := by
    intro x hx
    apply (Map.get_eq_none_iff _ _).mpr
    apply hfree (x.resource.attributes, x.scopeLogs)
    rw [← List.map_take]
    exact List.mem_map_of_mem _ hx
  obtain ⟨hlt, hget⟩ := List.getElem?_eq_some_iff.mp hrs
  have hdrop : ld.resourceLogs.drop k = rl :: ld.resourceLogs.drop (k + 1) := by
    rw [← hget]
    exact List.drop_eq_getElem_cons hlt
  have hsplit : ld.resourceLogs =
      ld.resourceLogs.take k ++ rl :: ld.resourceLogs.drop (k + 1) := by
    rw [← hdrop]
    exact (List.take_append_drop k ld.resourceLogs).symm
  obtain ⟨he, hr, hi, _⟩ := processLogs_of_conflict ctx ld h _ _ rl v hsplit hpre hv
  refine ⟨⟨v, he⟩, hr, ?_⟩
  unfold Logs.groups
  rw [hi, ← hdrop]
  simp [List.map_take, List.map_drop, List.map_map, Function.comp_def, withTenant]

/-! ## The first conflicting resource -/

theorem exists_firstConflictAt {P : Type} (gs : List (Map × P)) (h : Conflicting gs) :
    ∃ k v, FirstConflictAt gs k v := by
  obtain ⟨pre, g, post, v, hsplit, hpre, hg⟩ :=
    exists_first_conflict (fun g : Map × P => g.1) gs h
  refine ⟨pre.length, v, ?_, g, ?_, hg⟩
  · intro x hx
    rw [hsplit, List.take_left] at hx
    exact (Map.get_eq_none_iff _ _).mp (hpre x hx)
  · rw [hsplit, List.getElem?_append_right (Nat.le_refl _)]
    simp

theorem firstConflictAt_unique {P : Type} (gs : List (Map × P)) (k k2 : Nat) (v v2 : Value)
    (h : FirstConflictAt gs k v) (h2 : FirstConflictAt gs k2 v2) : k = k2 ∧ v = v2 := by
  obtain ⟨hf, g, hg, hv⟩ := h
  obtain ⟨hf2, g2, hg2, hv2⟩ := h2
  have hkey : g.1.HasKey TenetAttrKey := (Map.hasKey_iff_get _ _).mpr ⟨v, hv⟩
  have hkey2 : g2.1.HasKey TenetAttrKey := (Map.hasKey_iff_get _ _).mpr ⟨v2, hv2⟩
  have hk : k = k2 := by
    rcases Nat.lt_trichotomy k k2 with hlt | heq | hgt
    · exfalso
      apply hf2 g _ hkey
      apply List.mem_iff_getElem?.mpr
      refine ⟨k, ?_⟩
      rw [List.getElem?_take_of_lt hlt]
      exact hg
    · exact heq
    · exfalso
      apply hf g2 _ hkey2
      apply List.mem_iff_getElem?.mpr
      refine ⟨k2, ?_⟩
      rw [List.getElem?_take_of_lt hgt]
      exact hg2
  subst hk
  rw [hg] at hg2
  cases hg2
  rw [hv] at hv2
  cases hv2
  exact ⟨rfl, rfl⟩

theorem firstConflictAt_of_take_eq {P : Type} (gs gs2 : List (Map × P)) (k : Nat) (v : Value)
    (h : FirstConflictAt gs k v) (ht : gs2.take (k + 1) = gs.take (k + 1)) :
    FirstConflictAt gs2 k v := by
  obtain ⟨hf, g, hg, hv⟩ := h
  have hk : gs2.take k = gs.take k := by
    have h1 := congrArg (List.take k) ht
    rw [List.take_take, List.take_take] at h1
    simpa using h1
  refine ⟨?_, g, ?_, hv⟩
  · rw [hk]
    exact hf
  · have h1 := congrArg (fun l => l[k]?) ht
    simp only [List.getElem?_take_of_lt (Nat.lt_succ_self k)] at h1
    rw [h1]
    exact hg

theorem processTraces_first_conflict {S : Type} (ctx : Context) (td : Traces S) (k : Nat)
    (v : Value) (h : tenantId ctx ≠ "") (hc : FirstConflictAt td.groups k v) :
    (processTraces ctx td).err =
        some (fmt.Errorf conflictingTenantFormat [FmtArg.str TenetAttrKey, FmtArg.value v]) ∧
      (processTraces ctx td).returned = NewTraces ∧
      (processTraces ctx td).input.groups =
        (td.groups.take k).map (withTenant (tenantId ctx)) ++ td.groups.drop k := by
  obtain ⟨hfree, g, hg, hval⟩ := hc
  unfold Traces.groups at hg hfree
  rw [List.getElem?_map] at hg
  obtain ⟨rs, hrs, rfl⟩ := Option.map_eq_some'.mp hg
  have hpre : ∀ x ∈ td.resourceSpans.take k, x.resource.attributes.Get TenetAttrKey = none := by
    intro x hx
    apply (Map.get_eq_none_iff _ _).mpr
    apply hfree (x.resource.attributes, x.scopeSpans)
    rw [← List.map_take]
    exact List.mem_map_of_mem _ hx
  obtain ⟨hlt, hget⟩ := List.getElem?_eq_some_iff.mp hrs
  have hdrop : td.resourceSpans.drop k = rs :: td.resourceSpans.drop (k + 1) := by
    rw [← hget]
    exact List.drop_eq_getElem_cons hlt
  have hsplit : td.resourceSpans =
      td.resourceSpans.take k ++ rs :: td.resourceSpans.drop (k + 1) := by
    rw [← hdrop]
    exact (List.take_append_drop k td.resourceSpans).symm
  obtain ⟨he, hr, hi, _⟩ := processTraces_of_conflict ctx td h _ _ rs v hsplit hpre hval
  refine ⟨he, hr, ?_⟩
  unfold Traces.groups
  rw [hi, ← hdrop]
  simp [List.map_take, List.map_drop, List.map_map, Function.comp_def, withTenant]

theorem processMetrics_first_conflict {M : Type} (ctx : Context) (md : Metrics M) (k : Nat)
    (v : Value) (h : tenantId ctx ≠ "") (hc : FirstConflictAt md.groups k v) :
    (processMetrics ctx md).err =
        some (fmt.Errorf conflictingTenantFormat [FmtArg.str TenetAttrKey, FmtArg.value v]) ∧
      (processMetrics ctx md).returned = NewMetrics ∧
      (processMetrics ctx md).input.groups =
        (md.groups.take k).map (withTenant (tenantId ctx)) ++ md.groups.drop k := by
  obtain ⟨hfree, g, hg, hval⟩ := hc
  unfold Metrics.groups at hg hfree
  rw [List.getElem?_map] at hg
  obtain ⟨rm, hrs, rfl⟩ := Option.map_eq_some'.mp hg
  have hpre : ∀ x ∈ md.resourceMetrics.take k, x.resource.attributes.Get TenetAttrKey = none := by
    intro x hx
    apply (Map.get_eq_none_iff _ _).mpr
    apply hfree (x.resource.attributes, x.scopeMetrics)
    rw [← List.map_take]
    exact List.mem_map_of_mem _ hx
  obtain ⟨hlt, hget⟩ := List.getElem?_eq_some_iff.mp hrs
  have hdrop : md.resourceMetrics.drop k = rm :: md.resourceMetrics.drop (k + 1) := by
    rw [← hget]
    exact List.drop_eq_getElem_cons hlt
  have hsplit : md.resourceMetrics =
      md.resourceMetrics.take k ++ rm :: md.resourceMetrics.drop (k + 1) := by
    rw [← hdrop]
    exact (List.take_append_drop k md.resourceMetrics).symm
  obtain ⟨he, hr, hi, _⟩ := processMetrics_of_conflict ctx md h _ _ rm v hsplit hpre hval
  refine ⟨he, hr, ?_⟩
  unfold Metrics.groups
  rw [hi, ← hdrop]
  simp [List.map_take, List.map_drop, List.map_map, Function.comp_def, withTenant]

theorem processLogs_first_conflict {L : Type} (ctx : Context) (ld : Logs L) (k : Nat)
    (v : Value) (h : tenantId ctx ≠ "") (hc : FirstConflictAt ld.groups k v) :
    (processLogs ctx ld).err =
        some (fmt.Errorf conflictingTenantFormat [FmtArg.str TenetAttrKey, FmtArg.value v]) ∧
      (processLogs ctx ld).returned = NewLogs ∧
      (processLogs ctx ld).input.groups =
        (ld.groups.take k).map (withTenant (tenantId ctx)) ++ ld.groups.drop k := by
  obtain ⟨hfree, g, hg, hval⟩ := hc
  unfold Logs.groups at hg hfree
  rw [List.getElem?_map] at hg
  obtain ⟨rl, hrs, rfl⟩ := Option.map_eq_some'.mp hg
  have hpre : ∀ x ∈ ld.resourceLogs.take k, x.resource.attributes.Get TenetAttrKey = none := by
    intro x hx
    apply (Map.get_eq_none_iff _ _).mpr
    apply hfree (x.resource.attributes, x.scopeLogs)
    rw [← List.map_take]
    exact List.mem_map_of_mem _ hx
  obtain ⟨hlt, hget⟩ := List.getElem?_eq_some_iff.mp hrs
  have hdrop : ld.resourceLogs.drop k = rl :: ld.resourceLogs.drop (k + 1) := by
    rw [← hget]
    exact List.drop_eq_getElem_cons hlt
  have hsplit : ld.resourceLogs =
      ld.resourceLogs.take k ++ rl :: ld.resourceLogs.drop (k + 1) := by
    rw [← hdrop]
    exact (List.take_append_drop k ld.resourceLogs).symm
  obtain ⟨he, hr, hi, _⟩ := processLogs_of_conflict ctx ld h _ _ rl v hsplit hpre hval
  refine ⟨he, hr, ?_⟩
  unfold Logs.groups
  rw [hi, ← hdrop]
  simp [List.map_take, List.map_drop, List.map_map, Function.comp_def, withTenant]

theorem unchanged_from_first_conflict {P : Type} (gs out : List (Map × P)) (k : Nat)
    (v : Value) (id : String) (hfc : FirstConflictAt gs k v)
    (hout : out = (gs.take k).map (withTenant id) ++ gs.drop k) :
    ∀ i, k ≤ i → out[i]? = gs[i]? := by
  obtain ⟨_, g, hg, _⟩ := hfc
  have hk : k < gs.length := (List.getElem?_eq_some_iff.mp hg).1
  exact (prefix_and_rest_of_append k _ _ out gs
    (by rw [List.length_map, List.length_take]; omega) hout rfl).2

/-! ## Properties of the three operations -/

/-- C1: when the request metadata holds at least one value under
`X-ORGANIZATION-ID`, none of them empty, and no resource group of the batch
carries the key `organization`, each of the three operations returns no error
and hands back the groups of its input, one for one and in the same order, each
with exactly one attribute `organization`, a string equal to the metadata values
joined with `;`. -/
theorem stamp_succeeds_on_free_batch {S M L : Type} (ctx : Context)
    (td : Traces S) (md : Metrics M) (ld : Logs L)
    (hpresent : tenantValues ctx ≠ [])
    (hvalues : ∀ v ∈ tenantValues ctx, v ≠ "")
    (ht : Free td.groups) (hm : Free md.groups) (hl : Free ld.groups) :
    ((processTraces ctx td).err = none ∧
        Stamped (strings.Join (tenantValues ctx) ";") td.groups
          (processTraces ctx td).returned.groups) ∧
      ((processMetrics ctx md).err = none ∧
        Stamped (strings.Join (tenantValues ctx) ";") md.groups
          (processMetrics ctx md).returned.groups) ∧
      ((processLogs ctx ld).err = none ∧
        Stamped (strings.Join (tenantValues ctx) ";") ld.groups
          (processLogs ctx ld).returned.groups) := by
  have hid : tenantId ctx ≠ "" := by
    obtain ⟨v, hv⟩ := List.exists_mem_of_ne_nil _ hpresent
    exact join_ne_empty_of_some _ v hv (hvalues v hv)
  obtain ⟨e1, r1, _, _⟩ := processTraces_of_free ctx td hid ht
  obtain ⟨e2, r2, _, _⟩ := processMetrics_of_free ctx md hid hm
  obtain ⟨e3, r3, _, _⟩ := processLogs_of_free ctx ld hid hl
  refine ⟨⟨e1, ?_⟩, ⟨e2, ?_⟩, ⟨e3, ?_⟩⟩
  · rw [r1]
    exact stamped_withTenant (tenantId ctx) _ ht
  · rw [r2]
    exact stamped_withTenant (tenantId ctx) _ hm
  · rw [r3]
    exact stamped_withTenant (tenantId ctx) _ hl

/-- C1 at the request `X-ORGANIZATION-ID: someone` and the batches of one
resource without attributes. -/
theorem stamp_succeeds_on_free_batch_witness :
    (tenantValues (ctxOf ["someone"]) ≠ [] ∧
      (∀ v ∈ tenantValues (ctxOf ["someone"]), v ≠ "") ∧
      Free tdPlain.groups ∧ Free mdPlain.groups ∧ Free ldPlain.groups) ∧
    (((processTraces (ctxOf ["someone"]) tdPlain).err = none ∧
        Stamped (strings.Join (tenantValues (ctxOf ["someone"])) ";") tdPlain.groups
          (processTraces (ctxOf ["someone"]) tdPlain).returned.groups) ∧
      ((processMetrics (ctxOf ["someone"]) mdPlain).err = none ∧
        Stamped (strings.Join (tenantValues (ctxOf ["someone"])) ";") mdPlain.groups
          (processMetrics (ctxOf ["someone"]) mdPlain).returned.groups) ∧
      ((processLogs (ctxOf ["someone"]) ldPlain).err = none ∧
        Stamped (strings.Join (tenantValues (ctxOf ["someone"])) ";") ldPlain.groups
          (processLogs (ctxOf ["someone"]) ldPlain).returned.groups)) := by
  have h1 : tenantValues (ctxOf ["someone"]) ≠ [] := by decide
  have h2 : ∀ v ∈ tenantValues (ctxOf ["someone"]), v ≠ "" := by decide
  have h3 : Free tdPlain.groups := by
    simp [Free, Traces.groups, tdPlain, Map.HasKey]
  have h4 : Free mdPlain.groups := by
    simp [Free, Metrics.groups, mdPlain, Map.HasKey]
  have h5 : Free ldPlain.groups := by
    simp [Free, Logs.groups, ldPlain, Map.HasKey]
  exact ⟨⟨h1, h2, h3, h4, h5⟩,
    stamp_succeeds_on_free_batch (ctxOf ["someone"]) tdPlain mdPlain ldPlain h1 h2 h3 h4 h5⟩

/-- C2 as written fails: with the key `X-ORGANIZATION-ID` present but holding
only the empty string, a batch whose resource already has `organization` is
refused with the missing-tenant error, not the conflicting-tenant error. -/
theorem conflict_on_present_key_counterexample :
    (client.FromContext (ctxOf [""])).metadata.Has TenetHeaderKey ∧
      Conflicting tdTagged.groups ∧
      IsMissingTenant (processTraces (ctxOf [""]) tdTagged).err ∧
      ¬ IsConflictingTenant (processTraces (ctxOf [""]) tdTagged).err := by
  have hid : tenantId (ctxOf [""]) = "" := by decide
  obtain ⟨he, _, _, _⟩ := processTraces_of_empty (ctxOf [""]) tdTagged hid
  refine ⟨?_, ?_, he, not_conflicting_of_missing _ he⟩
  · unfold Metadata.Has
    decide
  · exact ⟨_, List.mem_singleton.mpr rfl, by simp [Map.HasKey]⟩

/-- C2, amended: when the metadata values under `X-ORGANIZATION-ID` joined with
`;` are not empty and some resource group of the batch already carries the key
`organization`, whatever its value, each of the three operations fails with
the conflicting-tenant error and returns a batch without resource groups. -/
theorem conflict_on_tagged_batch {S M L : Type} (ctx : Context)
    (td : Traces S) (md : Metrics M) (ld : Logs L)
    (hid : strings.Join (tenantValues ctx) ";" ≠ "")
    (ht : Conflicting td.groups) (hm : Conflicting md.groups) (hl : Conflicting ld.groups) :
    (IsConflictingTenant (processTraces ctx td).err ∧
        (processTraces ctx td).returned.resourceSpans = []) ∧
      (IsConflictingTenant (processMetrics ctx md).err ∧
        (processMetrics ctx md).returned.resourceMetrics = []) ∧
      (IsConflictingTenant (processLogs ctx ld).err ∧
        (processLogs ctx ld).returned.resourceLogs = []) := by
  obtain ⟨e1, r1⟩ := processTraces_conflicting ctx td hid ht
  obtain ⟨e2, r2⟩ := processMetrics_conflicting ctx md hid hm
  obtain ⟨e3, r3⟩ := processLogs_conflicting ctx ld hid hl
  refine ⟨⟨e1, ?_⟩, ⟨e2, ?_⟩, ⟨e3, ?_⟩⟩
  · rw [r1]
    rfl
  · rw [r2]
    rfl
  · rw [r3]
    rfl

/-- C2, amended, at the request `X-ORGANIZATION-ID: someone` and the batches
whose resource already has `organization = "someone"`. -/
theorem conflict_on_tagged_batch_witness :
    (strings.Join (tenantValues (ctxOf ["someone"])) ";" ≠ "" ∧
      Conflicting tdTagged.groups ∧ Conflicting mdTagged.groups ∧
      Conflicting ldTagged.groups) ∧
    ((IsConflictingTenant (processTraces (ctxOf ["someone"]) tdTagged).err ∧
        (processTraces (ctxOf ["someone"]) tdTagged).returned.resourceSpans = []) ∧
      (IsConflictingTenant (processMetrics (ctxOf ["someone"]) mdTagged).err ∧
        (processMetrics (ctxOf ["someone"]) mdTagged).returned.resourceMetrics = []) ∧
      (IsConflictingTenant (processLogs (ctxOf ["someone"]) ldTagged).err ∧
        (processLogs (ctxOf ["someone"]) ldTagged).returned.resourceLogs = [])) := by
  have h1 : strings.Join (tenantValues (ctxOf ["someone"])) ";" ≠ "" := by decide
  have h2 : Conflicting tdTagged.groups :=
    ⟨_, List.mem_singleton.mpr rfl, by simp [Map.HasKey]⟩
  have h3 : Conflicting mdTagged.groups :=
    ⟨_, List.mem_singleton.mpr rfl, by simp [Map.HasKey]⟩
  have h4 : Conflicting ldTagged.groups :=
    ⟨_, List.mem_singleton.mpr rfl, by simp [Map.HasKey]⟩
  exact ⟨⟨h1, h2, h3, h4⟩,
    conflict_on_tagged_batch (ctxOf ["someone"]) tdTagged mdTagged ldTagged h1 h2 h3 h4⟩

/-- C3 as written fails: with two empty strings under `X-ORGANIZATION-ID` the
key maps only to empty strings, yet the joined value is `;`, the call on a batch
without `organization` succeeds, and one resource group is returned. -/
theorem missing_on_empty_values_counterexample :
    (∀ v ∈ tenantValues (ctxOf ["", ""]), v = "") ∧
      (processTraces (ctxOf ["", ""]) tdPlain).err = none ∧
      ¬ IsMissingTenant (processTraces (ctxOf ["", ""]) tdPlain).err ∧
      (processTraces (ctxOf ["", ""]) tdPlain).returned.groups =
        [([(TenetAttrKey, Value.str ";")], ["span-1"])] := by
  have hid : tenantId (ctxOf ["", ""]) ≠ "" := by decide
  have hf : Free tdPlain.groups := by
    simp [Free, Traces.groups, tdPlain, Map.HasKey]
  obtain ⟨he, hr, _, _⟩ := processTraces_of_free (ctxOf ["", ""]) tdPlain hid hf
  refine ⟨by decide, he, ?_, ?_⟩
  · rw [he]
    exact not_missing_none
  · rw [hr]
    rfl

/-- C3, amended: when the lookup of `X-ORGANIZATION-ID` in the request metadata
gives no value (the key is absent or holds no value) or gives the empty string
as its single value, each of the three operations fails on every batch with the
missing-tenant error (not the conflicting-tenant error) and returns a batch
without resource groups. -/
theorem missing_on_absent_or_single_empty {S M L : Type} (ctx : Context)
    (td : Traces S) (md : Metrics M) (ld : Logs L)
    (h : tenantValues ctx = [] ∨ tenantValues ctx = [""]) :
    (IsMissingTenant (processTraces ctx td).err ∧
        ¬ IsConflictingTenant (processTraces ctx td).err ∧
        (processTraces ctx td).returned.resourceSpans = []) ∧
      (IsMissingTenant (processMetrics ctx md).err ∧
        ¬ IsConflictingTenant (processMetrics ctx md).err ∧
        (processMetrics ctx md).returned.resourceMetrics = []) ∧
      (IsMissingTenant (processLogs ctx ld).err ∧
        ¬ IsConflictingTenant (processLogs ctx ld).err ∧
        (processLogs ctx ld).returned.resourceLogs = []) := by
  have hid := tenantId_eq_empty_of ctx h
  obtain ⟨e1, r1, _, _⟩ := processTraces_of_empty ctx td hid
  obtain ⟨e2, r2, _, _⟩ := processMetrics_of_empty ctx md hid
  obtain ⟨e3, r3, _, _⟩ := processLogs_of_empty ctx ld hid
  refine ⟨⟨e1, not_conflicting_of_missing _ e1, ?_⟩,
    ⟨e2, not_conflicting_of_missing _ e2, ?_⟩, ⟨e3, not_conflicting_of_missing _ e3, ?_⟩⟩
  · rw [r1]
    rfl
  · rw [r2]
    rfl
  · rw [r3]
    rfl

/-- C3, amended, at the request `X-ORGANIZATION-ID: ""` and the batches whose
resource already has `organization = "someone"`. -/
theorem missing_on_absent_or_single_empty_witness :
    (tenantValues (ctxOf [""]) = [] ∨ tenantValues (ctxOf [""]) = [""]) ∧
    ((IsMissingTenant (processTraces (ctxOf [""]) tdTagged).err ∧
        ¬ IsConflictingTenant (processTraces (ctxOf [""]) tdTagged).err ∧
        (processTraces (ctxOf [""]) tdTagged).returned.resourceSpans = []) ∧
      (IsMissingTenant (processMetrics (ctxOf [""]) mdTagged).err ∧
        ¬ IsConflictingTenant (processMetrics (ctxOf [""]) mdTagged).err ∧
        (processMetrics (ctxOf [""]) mdTagged).returned.resourceMetrics = []) ∧
      (IsMissingTenant (processLogs (ctxOf [""]) ldTagged).err ∧
        ¬ IsConflictingTenant (processLogs (ctxOf [""]) ldTagged).err ∧
        (processLogs (ctxOf [""]) ldTagged).returned.resourceLogs = [])) := by
  have h : tenantValues (ctxOf [""]) = [] ∨ tenantValues (ctxOf [""]) = [""] :=
    Or.inr (by decide)
  exact ⟨h, missing_on_absent_or_single_empty (ctxOf [""]) tdTagged mdTagged ldTagged h⟩

/-- C4: for every context and every batch, each of the three operations fails
with the missing-tenant error exactly when the metadata values under
`X-ORGANIZATION-ID` joined with `;` are the empty string, and returns an error
at all exactly when that string is empty or some resource group of the batch
already carries the key `organization`. -/
theorem error_iff_empty_or_conflict {S M L : Type} (ctx : Context)
    (td : Traces S) (md : Metrics M) (ld : Logs L) :
    ((IsMissingTenant (processTraces ctx td).err ↔
          strings.Join (tenantValues ctx) ";" = "") ∧
        ((processTraces ctx td).err ≠ none ↔
          strings.Join (tenantValues ctx) ";" = "" ∨ Conflicting td.groups)) ∧
      ((IsMissingTenant (processMetrics ctx md).err ↔
          strings.Join (tenantValues ctx) ";" = "") ∧
        ((processMetrics ctx md).err ≠ none ↔
          strings.Join (tenantValues ctx) ";" = "" ∨ Conflicting md.groups)) ∧
      ((IsMissingTenant (processLogs ctx ld).err ↔
          strings.Join (tenantValues ctx) ";" = "") ∧
        ((processLogs ctx ld).err ≠ none ↔
          strings.Join (tenantValues ctx) ";" = "" ∨ Conflicting ld.groups)) := by
  refine ⟨err_iff_of_cases (tenantId ctx) _ (Conflicting td.groups) ?_,
    err_iff_of_cases (tenantId ctx) _ (Conflicting md.groups) ?_,
    err_iff_of_cases (tenantId ctx) _ (Conflicting ld.groups) ?_⟩
  · rcases processTraces_cases ctx td with ⟨a, b, _⟩ | ⟨a, b, c, _⟩ | ⟨a, b, c, _⟩
    · exact Or.inl ⟨a, b⟩
    · exact Or.inr (Or.inl ⟨a, b, c⟩)
    · exact Or.inr (Or.inr ⟨a, b, c⟩)
  · rcases processMetrics_cases ctx md with ⟨a, b, _⟩ | ⟨a, b, c, _⟩ | ⟨a, b, c, _⟩
    · exact Or.inl ⟨a, b⟩
    · exact Or.inr (Or.inl ⟨a, b, c⟩)
    · exact Or.inr (Or.inr ⟨a, b, c⟩)
  · rcases processLogs_cases ctx ld with ⟨a, b, _⟩ | ⟨a, b, c, _⟩ | ⟨a, b, c, _⟩
    · exact Or.inl ⟨a, b⟩
    · exact Or.inr (Or.inl ⟨a, b, c⟩)
    · exact Or.inr (Or.inr ⟨a, b, c⟩)

/-- C5: when the metadata holds two or more values under `X-ORGANIZATION-ID`
and no resource group of the batch carries the key `organization`, the joined
value is the values in their given order with `;` between them, and each of the
three operations succeeds and gives every resource group exactly one attribute
`organization` equal to that string. -/
theorem multiple_values_are_joined {S M L : Type} (ctx : Context)
    (td : Traces S) (md : Metrics M) (ld : Logs L)
    (hmany : 2 ≤ (tenantValues ctx).length)
    (ht : Free td.groups) (hm : Free md.groups) (hl : Free ld.groups) :
    strings.Join (tenantValues ctx) ";" = ";".intercalate (tenantValues ctx) ∧
      ((processTraces ctx td).err = none ∧
        Stamped (";".intercalate (tenantValues ctx)) td.groups
          (processTraces ctx td).returned.groups) ∧
      ((processMetrics ctx md).err = none ∧
        Stamped (";".intercalate (tenantValues ctx)) md.groups
          (processMetrics ctx md).returned.groups) ∧
      ((processLogs ctx ld).err = none ∧
        Stamped (";".intercalate (tenantValues ctx)) ld.groups
          (processLogs ctx ld).returned.groups) := by
  have hj := join_eq_intercalate (tenantValues ctx) ";"
  have hid : tenantId ctx ≠ "" := by
    unfold tenantId
    match hv : tenantValues ctx, hmany with
    | e :: e2 :: rest, _ => exact join_ne_empty_of_two e e2 rest
  have hid2 : tenantId ctx = ";".intercalate (tenantValues ctx) := hj
  obtain ⟨e1, r1, _, _⟩ := processTraces_of_free ctx td hid ht
  obtain ⟨e2, r2, _, _⟩ := processMetrics_of_free ctx md hid hm
  obtain ⟨e3, r3, _, _⟩ := processLogs_of_free ctx ld hid hl
  refine ⟨hj, ⟨e1, ?_⟩, ⟨e2, ?_⟩, ⟨e3, ?_⟩⟩
  · rw [r1, ← hid2]
    exact stamped_withTenant (tenantId ctx) _ ht
  · rw [r2, ← hid2]
    exact stamped_withTenant (tenantId ctx) _ hm
  · rw [r3, ← hid2]
    exact stamped_withTenant (tenantId ctx) _ hl

/-- C5 at the request with the two values `a` and `b`: the resource of each
batch gets `organization = "a;b"`. -/
theorem multiple_values_are_joined_witness :
    (2 ≤ (tenantValues (ctxOf ["a", "b"])).length ∧
      Free tdPlain.groups ∧ Free mdPlain.groups ∧ Free ldPlain.groups) ∧
    ";".intercalate (tenantValues (ctxOf ["a", "b"])) = "a;b" ∧
    (strings.Join (tenantValues (ctxOf ["a", "b"])) ";" =
        ";".intercalate (tenantValues (ctxOf ["a", "b"])) ∧
      ((processTraces (ctxOf ["a", "b"]) tdPlain).err = none ∧
        Stamped (";".intercalate (tenantValues (ctxOf ["a", "b"]))) tdPlain.groups
          (processTraces (ctxOf ["a", "b"]) tdPlain).returned.groups) ∧
      ((processMetrics (ctxOf ["a", "b"]) mdPlain).err = none ∧
        Stamped (";".intercalate (tenantValues (ctxOf ["a", "b"]))) mdPlain.groups
          (processMetrics (ctxOf ["a", "b"]) mdPlain).returned.groups) ∧
      ((processLogs (ctxOf ["a", "b"]) ldPlain).err = none ∧
        Stamped (";".intercalate (tenantValues (ctxOf ["a", "b"]))) ldPlain.groups
          (processLogs (ctxOf ["a", "b"]) ldPlain).returned.groups)) := by
  have h1 : 2 ≤ (tenantValues (ctxOf ["a", "b"])).length := by decide
  have h3 : Free tdPlain.groups := by
    simp [Free, Traces.groups, tdPlain, Map.HasKey]
  have h4 : Free mdPlain.groups := by
    simp [Free, Metrics.groups, mdPlain, Map.HasKey]
  have h5 : Free ldPlain.groups := by
    simp [Free, Logs.groups, ldPlain, Map.HasKey]
  exact ⟨⟨h1, h3, h4, h5⟩, by decide,
    multiple_values_are_joined (ctxOf ["a", "b"]) tdPlain mdPlain ldPlain h1 h3 h4 h5⟩

/-- C6 as written fails: on a batch without resource groups the call succeeds,
and the call on the returned batch with the same context succeeds again instead
of failing with the conflicting-tenant error. -/
theorem reprocess_empty_batch_counterexample :
    (processTraces (ctxOf ["someone"]) (NewTraces : Traces (List String))).err = none ∧
      (processTraces (ctxOf ["someone"])
        (processTraces (ctxOf ["someone"]) (NewTraces : Traces (List String))).returned).err
          = none ∧
      ¬ IsConflictingTenant (processTraces (ctxOf ["someone"])
        (processTraces (ctxOf ["someone"]) (NewTraces : Traces (List String))).returned).err := by
  have h1 : (processTraces (ctxOf ["someone"]) (NewTraces : Traces (List String))).err
      = none := by rfl
  have h2 : (processTraces (ctxOf ["someone"])
      (processTraces (ctxOf ["someone"]) (NewTraces : Traces (List String))).returned).err
        = none := by rfl
  refine ⟨h1, h2, ?_⟩
  rw [h2]
  exact not_conflicting_none

/-- C6, amended: for every context and every batch with at least one resource
group on which an operation succeeds, the same operation on the returned batch
with the same context fails with the conflicting-tenant error and returns a
batch without resource groups. -/
theorem reprocess_is_refused {S M L : Type} (ctx : Context)
    (td : Traces S) (md : Metrics M) (ld : Logs L)
    (ht : (processTraces ctx td).err = none) (hm : (processMetrics ctx md).err = none)
    (hl : (processLogs ctx ld).err = none)
    (nt : td.resourceSpans ≠ []) (nm : md.resourceMetrics ≠ []) (nl : ld.resourceLogs ≠ []) :
    (IsConflictingTenant (processTraces ctx (processTraces ctx td).returned).err ∧
        (processTraces ctx (processTraces ctx td).returned).returned.resourceSpans = []) ∧
      (IsConflictingTenant (processMetrics ctx (processMetrics ctx md).returned).err ∧
        (processMetrics ctx (processMetrics ctx md).returned).returned.resourceMetrics = []) ∧
      (IsConflictingTenant (processLogs ctx (processLogs ctx ld).returned).err ∧
        (processLogs ctx (processLogs ctx ld).returned).returned.resourceLogs = []) := by
  obtain ⟨i1, _, r1⟩ := processTraces_of_success ctx td ht
  obtain ⟨i2, _, r2⟩ := processMetrics_of_success ctx md hm
  obtain ⟨i3, _, r3⟩ := processLogs_of_success ctx ld hl
  have g1 : td.groups ≠ [] := fun h => nt (List.map_eq_nil_iff.mp h)
  have g2 : md.groups ≠ [] := fun h => nm (List.map_eq_nil_iff.mp h)
  have g3 : ld.groups ≠ [] := fun h => nl (List.map_eq_nil_iff.mp h)
  have c1 : Conflicting (processTraces ctx td).returned.groups := by
    rw [r1]
    exact conflicting_map_withTenant _ _ g1
  have c2 : Conflicting (processMetrics ctx md).returned.groups := by
    rw [r2]
    exact conflicting_map_withTenant _ _ g2
  have c3 : Conflicting (processLogs ctx ld).returned.groups := by
    rw [r3]
    exact conflicting_map_withTenant _ _ g3
  obtain ⟨e1, n1⟩ := processTraces_conflicting ctx _ i1 c1
  obtain ⟨e2, n2⟩ := processMetrics_conflicting ctx _ i2 c2
  obtain ⟨e3, n3⟩ := processLogs_conflicting ctx _ i3 c3
  refine ⟨⟨e1, ?_⟩, ⟨e2, ?_⟩, ⟨e3, ?_⟩⟩
  · rw [n1]
    rfl
  · rw [n2]
    rfl
  · rw [n3]
    rfl

/-- C6, amended, at the request `X-ORGANIZATION-ID: someone` and the batches of
one resource without attributes. -/
theorem reprocess_is_refused_witness :
    ((processTraces (ctxOf ["someone"]) tdPlain).err = none ∧
      (processMetrics (ctxOf ["someone"]) mdPlain).err = none ∧
      (processLogs (ctxOf ["someone"]) ldPlain).err = none ∧
      tdPlain.resourceSpans ≠ [] ∧ mdPlain.resourceMetrics ≠ [] ∧
      ldPlain.resourceLogs ≠ []) ∧
    ((IsConflictingTenant (processTraces (ctxOf ["someone"])
          (processTraces (ctxOf ["someone"]) tdPlain).returned).err ∧
        (processTraces (ctxOf ["someone"])
          (processTraces (ctxOf ["someone"]) tdPlain).returned).returned.resourceSpans = []) ∧
      (IsConflictingTenant (processMetrics (ctxOf ["someone"])
          (processMetrics (ctxOf ["someone"]) mdPlain).returned).err ∧
        (processMetrics (ctxOf ["someone"])
          (processMetrics (ctxOf ["someone"]) mdPlain).returned).returned.resourceMetrics
            = []) ∧
      (IsConflictingTenant (processLogs (ctxOf ["someone"])
          (processLogs (ctxOf ["someone"]) ldPlain).returned).err ∧
        (processLogs (ctxOf ["someone"])
          (processLogs (ctxOf ["someone"]) ldPlain).returned).returned.resourceLogs = [])) := by
  have h1 : (processTraces (ctxOf ["someone"]) tdPlain).err = none := by rfl
  have h2 : (processMetrics (ctxOf ["someone"]) mdPlain).err = none := by rfl
  have h3 : (processLogs (ctxOf ["someone"]) ldPlain).err = none := by rfl
  have n1 : tdPlain.resourceSpans ≠ [] := by simp [tdPlain]
  have n2 : mdPlain.resourceMetrics ≠ [] := by simp [mdPlain]
  have n3 : ldPlain.resourceLogs ≠ [] := by simp [ldPlain]
  exact ⟨⟨h1, h2, h3, n1, n2, n3⟩,
    reprocess_is_refused (ctxOf ["someone"]) tdPlain mdPlain ldPlain h1 h2 h3 n1 n2 n3⟩

/-- C7: on every successful call of one of the three operations the returned
groups have the nested data of the input groups, in the same order, and the
same entries under every attribute key other than `organization`, with the
same values and in the same order. -/
theorem success_changes_only_tenant_attribute {S M L : Type} (ctx : Context)
    (td : Traces S) (md : Metrics M) (ld : Logs L)
    (ht : (processTraces ctx td).err = none) (hm : (processMetrics ctx md).err = none)
    (hl : (processLogs ctx ld).err = none) :
    ((processTraces ctx td).returned.groups.map Prod.snd = td.groups.map Prod.snd ∧
        (processTraces ctx td).returned.groups.map (fun g => g.1.entriesOther TenetAttrKey) =
          td.groups.map (fun g => g.1.entriesOther TenetAttrKey)) ∧
      ((processMetrics ctx md).returned.groups.map Prod.snd = md.groups.map Prod.snd ∧
        (processMetrics ctx md).returned.groups.map (fun g => g.1.entriesOther TenetAttrKey) =
          md.groups.map (fun g => g.1.entriesOther TenetAttrKey)) ∧
      ((processLogs ctx ld).returned.groups.map Prod.snd = ld.groups.map Prod.snd ∧
        (processLogs ctx ld).returned.groups.map (fun g => g.1.entriesOther TenetAttrKey) =
          ld.groups.map (fun g => g.1.entriesOther TenetAttrKey)) := by
  obtain ⟨_, f1, r1⟩ := processTraces_of_success ctx td ht
  obtain ⟨_, f2, r2⟩ := processMetrics_of_success ctx md hm
  obtain ⟨_, f3, r3⟩ := processLogs_of_success ctx ld hl
  have s1 := stamped_withTenant (tenantId ctx) td.groups f1
  have s2 := stamped_withTenant (tenantId ctx) md.groups f2
  have s3 := stamped_withTenant (tenantId ctx) ld.groups f3
  rw [r1, r2, r3]
  exact ⟨⟨s1.2.1, s1.2.2.1⟩, ⟨s2.2.1, s2.2.2.1⟩, ⟨s3.2.1, s3.2.2.1⟩⟩

/-- C7 at the request `X-ORGANIZATION-ID: someone` and the batches of one
resource with the attribute `service.name = "checkout"`. -/
theorem success_changes_only_tenant_attribute_witness :
    ((processTraces (ctxOf ["someone"]) tdService).err = none ∧
      (processMetrics (ctxOf ["someone"]) mdService).err = none ∧
      (processLogs (ctxOf ["someone"]) ldService).err = none) ∧
    (((processTraces (ctxOf ["someone"]) tdService).returned.groups.map Prod.snd =
          tdService.groups.map Prod.snd ∧
        (processTraces (ctxOf ["someone"]) tdService).returned.groups.map
            (fun g => g.1.entriesOther TenetAttrKey) =
          tdService.groups.map (fun g => g.1.entriesOther TenetAttrKey)) ∧
      ((processMetrics (ctxOf ["someone"]) mdService).returned.groups.map Prod.snd =
          mdService.groups.map Prod.snd ∧
        (processMetrics (ctxOf ["someone"]) mdService).returned.groups.map
            (fun g => g.1.entriesOther TenetAttrKey) =
          mdService.groups.map (fun g => g.1.entriesOther TenetAttrKey)) ∧
      ((processLogs (ctxOf ["someone"]) ldService).returned.groups.map Prod.snd =
          ldService.groups.map Prod.snd ∧
        (processLogs (ctxOf ["someone"]) ldService).returned.groups.map
            (fun g => g.1.entriesOther TenetAttrKey) =
          ldService.groups.map (fun g => g.1.entriesOther TenetAttrKey))) := by
  have h1 : (processTraces (ctxOf ["someone"]) tdService).err = none := by rfl
  have h2 : (processMetrics (ctxOf ["someone"]) mdService).err = none := by rfl
  have h3 : (processLogs (ctxOf ["someone"]) ldService).err = none := by rfl
  exact ⟨⟨h1, h2, h3⟩,
    success_changes_only_tenant_attribute (ctxOf ["someone"]) tdService mdService ldService h1 h2 h3⟩

/-- C8: on a trace batch, a metric batch and a log batch whose resource groups
have the same attribute maps in the same order, `processTraces`,
`processMetrics` and `processLogs` return the same error (or none), the same
number of resource groups, and the same attribute maps on the returned
groups, for every context. -/
theorem three_kinds_agree {S M L : Type} (ctx : Context)
    (td : Traces S) (md : Metrics M) (ld : Logs L)
    (h1 : td.groups.map Prod.fst = md.groups.map Prod.fst)
    (h2 : md.groups.map Prod.fst = ld.groups.map Prod.fst) :
    ((processTraces ctx td).err = (processMetrics ctx md).err ∧
        (processMetrics ctx md).err = (processLogs ctx ld).err) ∧
      ((processTraces ctx td).returned.resourceSpans.length =
          (processMetrics ctx md).returned.resourceMetrics.length ∧
        (processMetrics ctx md).returned.resourceMetrics.length =
          (processLogs ctx ld).returned.resourceLogs.length) ∧
      ((processTraces ctx td).returned.groups.map Prod.fst =
          (processMetrics ctx md).returned.groups.map Prod.fst ∧
        (processMetrics ctx md).returned.groups.map Prod.fst =
          (processLogs ctx ld).returned.groups.map Prod.fst) := by
  have a := processTraces_attrs ctx td
  have b := processMetrics_attrs ctx md
  have c := processLogs_attrs ctx ld
  rw [h1] at a
  have ab := a.trans b.symm
  rw [h2] at b
  have bc := b.trans c.symm
  simp only [Prod.mk.injEq] at ab bc
  obtain ⟨ab1, ab2, _⟩ := ab
  obtain ⟨bc1, bc2, _⟩ := bc
  refine ⟨⟨ab1, bc1⟩, ⟨?_, ?_⟩, ⟨ab2, bc2⟩⟩
  · have := congrArg List.length ab2
    simpa [Traces.groups, Metrics.groups] using this
  · have := congrArg List.length bc2
    simpa [Metrics.groups, Logs.groups] using this

/-- C8 at the request `X-ORGANIZATION-ID: someone` and the three batches of two
resources, the second of which already has `organization`. -/
theorem three_kinds_agree_witness :
    (tdMixed.groups.map Prod.fst = mdMixed.groups.map Prod.fst ∧
      mdMixed.groups.map Prod.fst = ldMixed.groups.map Prod.fst) ∧
    (((processTraces (ctxOf ["someone"]) tdMixed).err =
          (processMetrics (ctxOf ["someone"]) mdMixed).err ∧
        (processMetrics (ctxOf ["someone"]) mdMixed).err =
          (processLogs (ctxOf ["someone"]) ldMixed).err) ∧
      ((processTraces (ctxOf ["someone"]) tdMixed).returned.resourceSpans.length =
          (processMetrics (ctxOf ["someone"]) mdMixed).returned.resourceMetrics.length ∧
        (processMetrics (ctxOf ["someone"]) mdMixed).returned.resourceMetrics.length =
          (processLogs (ctxOf ["someone"]) ldMixed).returned.resourceLogs.length) ∧
      ((processTraces (ctxOf ["someone"]) tdMixed).returned.groups.map Prod.fst =
          (processMetrics (ctxOf ["someone"]) mdMixed).returned.groups.map Prod.fst ∧
        (processMetrics (ctxOf ["someone"]) mdMixed).returned.groups.map Prod.fst =
          (processLogs (ctxOf ["someone"]) ldMixed).returned.groups.map Prod.fst)) := by
  have h1 : tdMixed.groups.map Prod.fst = mdMixed.groups.map Prod.fst := by rfl
  have h2 : mdMixed.groups.map Prod.fst = ldMixed.groups.map Prod.fst := by rfl
  exact ⟨⟨h1, h2⟩, three_kinds_agree (ctxOf ["someone"]) tdMixed mdMixed ldMixed h1 h2⟩

/-- C9: when the tenant identifier is not empty and the first resource group
carrying the key `organization` is at index `k`, the failing call returns a
batch without resource groups, while the batch that was passed in ends with its
groups below `k` carrying `organization` equal to the tenant identifier and its
groups at `k` and above as they were; this holds for each of the three
operations. -/
theorem failed_call_leaves_partial_stamps {S M L : Type} (ctx : Context)
    (td : Traces S) (md : Metrics M) (ld : Logs L) (kt km kl : Nat)
    (hid : strings.Join (tenantValues ctx) ";" ≠ "")
    (hft : Free (td.groups.take kt))
    (hkt : ∃ g, td.groups[kt]? = some g ∧ g.1.HasKey TenetAttrKey)
    (hfm : Free (md.groups.take km))
    (hkm : ∃ g, md.groups[km]? = some g ∧ g.1.HasKey TenetAttrKey)
    (hfl : Free (ld.groups.take kl))
    (hkl : ∃ g, ld.groups[kl]? = some g ∧ g.1.HasKey TenetAttrKey) :
    (IsConflictingTenant (processTraces ctx td).err ∧
        (processTraces ctx td).returned.resourceSpans = [] ∧
        (processTraces ctx td).input.groups =
          (td.groups.take kt).map (withTenant (strings.Join (tenantValues ctx) ";"))
            ++ td.groups.drop kt ∧
        (∀ i, i < kt → ∀ g, (processTraces ctx td).input.groups[i]? = some g →
          g.1.Get TenetAttrKey = some (Value.str (strings.Join (tenantValues ctx) ";"))) ∧
        (∀ i, kt ≤ i → (processTraces ctx td).input.groups[i]? = td.groups[i]?)) ∧
      (IsConflictingTenant (processMetrics ctx md).err ∧
        (processMetrics ctx md).returned.resourceMetrics = [] ∧
        (processMetrics ctx md).input.groups =
          (md.groups.take km).map (withTenant (strings.Join (tenantValues ctx) ";"))
            ++ md.groups.drop km ∧
        (∀ i, i < km → ∀ g, (processMetrics ctx md).input.groups[i]? = some g →
          g.1.Get TenetAttrKey = some (Value.str (strings.Join (tenantValues ctx) ";"))) ∧
        (∀ i, km ≤ i → (processMetrics ctx md).input.groups[i]? = md.groups[i]?)) ∧
      (IsConflictingTenant (processLogs ctx ld).err ∧
        (processLogs ctx ld).returned.resourceLogs = [] ∧
        (processLogs ctx ld).input.groups =
          (ld.groups.take kl).map (withTenant (strings.Join (tenantValues ctx) ";"))
            ++ ld.groups.drop kl ∧
        (∀ i, i < kl → ∀ g, (processLogs ctx ld).input.groups[i]? = some g →
          g.1.Get TenetAttrKey = some (Value.str (strings.Join (tenantValues ctx) ";"))) ∧
        (∀ i, kl ≤ i → (processLogs ctx ld).input.groups[i]? = ld.groups[i]?)) := by
  have lt1 : kt ≤ td.groups.length := by
    obtain ⟨g, hg, _⟩ := hkt
    exact Nat.le_of_lt (List.getElem?_eq_some_iff.mp hg).1
  have lt2 : km ≤ md.groups.length := by
    obtain ⟨g, hg, _⟩ := hkm
    exact Nat.le_of_lt (List.getElem?_eq_some_iff.mp hg).1
  have lt3 : kl ≤ ld.groups.length := by
    obtain ⟨g, hg, _⟩ := hkl
    exact Nat.le_of_lt (List.getElem?_eq_some_iff.mp hg).1
  obtain ⟨e1, r1, i1⟩ := processTraces_at_index ctx td kt hid hft hkt
  obtain ⟨e2, r2, i2⟩ := processMetrics_at_index ctx md km hid hfm hkm
  obtain ⟨e3, r3, i3⟩ := processLogs_at_index ctx ld kl hid hfl hkl
  obtain ⟨a1, b1⟩ := prefix_and_rest_of_append kt _ _ _ td.groups
    (by rw [List.length_map, List.length_take]; omega) i1 rfl
  obtain ⟨a2, b2⟩ := prefix_and_rest_of_append km _ _ _ md.groups
    (by rw [List.length_map, List.length_take]; omega) i2 rfl
  obtain ⟨a3, b3⟩ := prefix_and_rest_of_append kl _ _ _ ld.groups
    (by rw [List.length_map, List.length_take]; omega) i3 rfl
  refine ⟨⟨e1, ?_, i1, ?_, b1⟩, ⟨e2, ?_, i2, ?_, b2⟩, ⟨e3, ?_, i3, ?_, b3⟩⟩
  · rw [r1]
    rfl
  · intro i hi g hg
    exact get_of_mem_map_withTenant _ _ hft g (a1 i hi g hg)
  · rw [r2]
    rfl
  · intro i hi g hg
    exact get_of_mem_map_withTenant _ _ hfm g (a2 i hi g hg)
  · rw [r3]
    rfl
  · intro i hi g hg
    exact get_of_mem_map_withTenant _ _ hfl g (a3 i hi g hg)

/-- C9 at the request `X-ORGANIZATION-ID: someone` and the batches of two
resources whose second resource already has `organization`: the first resource
of the batch passed in ends stamped, the second is as it was, and nothing is
returned. -/
theorem failed_call_leaves_partial_stamps_witness :
    (strings.Join (tenantValues (ctxOf ["someone"])) ";" ≠ "" ∧
      Free (tdMixed.groups.take 1) ∧
      (∃ g, tdMixed.groups[1]? = some g ∧ g.1.HasKey TenetAttrKey) ∧
      Free (mdMixed.groups.take 1) ∧
      (∃ g, mdMixed.groups[1]? = some g ∧ g.1.HasKey TenetAttrKey) ∧
      Free (ldMixed.groups.take 1) ∧
      (∃ g, ldMixed.groups[1]? = some g ∧ g.1.HasKey TenetAttrKey)) ∧
    ((IsConflictingTenant (processTraces (ctxOf ["someone"]) tdMixed).err ∧
        (processTraces (ctxOf ["someone"]) tdMixed).returned.resourceSpans = [] ∧
        (processTraces (ctxOf ["someone"]) tdMixed).input.groups =
          (tdMixed.groups.take 1).map
              (withTenant (strings.Join (tenantValues (ctxOf ["someone"])) ";"))
            ++ tdMixed.groups.drop 1 ∧
        (∀ i, i < 1 → ∀ g,
          (processTraces (ctxOf ["someone"]) tdMixed).input.groups[i]? = some g →
          g.1.Get TenetAttrKey =
            some (Value.str (strings.Join (tenantValues (ctxOf ["someone"])) ";"))) ∧
        (∀ i, 1 ≤ i →
          (processTraces (ctxOf ["someone"]) tdMixed).input.groups[i]? = tdMixed.groups[i]?)) ∧
      (IsConflictingTenant (processMetrics (ctxOf ["someone"]) mdMixed).err ∧
        (processMetrics (ctxOf ["someone"]) mdMixed).returned.resourceMetrics = [] ∧
        (processMetrics (ctxOf ["someone"]) mdMixed).input.groups =
          (mdMixed.groups.take 1).map
              (withTenant (strings.Join (tenantValues (ctxOf ["someone"])) ";"))
            ++ mdMixed.groups.drop 1 ∧
        (∀ i, i < 1 → ∀ g,
          (processMetrics (ctxOf ["someone"]) mdMixed).input.groups[i]? = some g →
          g.1.Get TenetAttrKey =
            some (Value.str (strings.Join (tenantValues (ctxOf ["someone"])) ";"))) ∧
        (∀ i, 1 ≤ i →
          (processMetrics (ctxOf ["someone"]) mdMixed).input.groups[i]? =
            mdMixed.groups[i]?)) ∧
      (IsConflictingTenant (processLogs (ctxOf ["someone"]) ldMixed).err ∧
        (processLogs (ctxOf ["someone"]) ldMixed).returned.resourceLogs = [] ∧
        (processLogs (ctxOf ["someone"]) ldMixed).input.groups =
          (ldMixed.groups.take 1).map
              (withTenant (strings.Join (tenantValues (ctxOf ["someone"])) ";"))
            ++ ldMixed.groups.drop 1 ∧
        (∀ i, i < 1 → ∀ g,
          (processLogs (ctxOf ["someone"]) ldMixed).input.groups[i]? = some g →
          g.1.Get TenetAttrKey =
            some (Value.str (strings.Join (tenantValues (ctxOf ["someone"])) ";"))) ∧
        (∀ i, 1 ≤ i →
          (processLogs (ctxOf ["someone"]) ldMixed).input.groups[i]? = ldMixed.groups[i]?))) := by
  have h0 : strings.Join (tenantValues (ctxOf ["someone"])) ";" ≠ "" := by decide
  have f1 : Free (tdMixed.groups.take 1) := by
    simp [Free, Traces.groups, tdMixed, Map.HasKey]
  have k1 : ∃ g, tdMixed.groups[1]? = some g ∧ g.1.HasKey TenetAttrKey :=
    ⟨([(TenetAttrKey, Value.str "someone")], ["span-2"]), rfl, by simp [Map.HasKey]⟩
  have f2 : Free (mdMixed.groups.take 1) := by
    simp [Free, Metrics.groups, mdMixed, Map.HasKey]
  have k2 : ∃ g, mdMixed.groups[1]? = some g ∧ g.1.HasKey TenetAttrKey :=
    ⟨([(TenetAttrKey, Value.str "someone")], ["metric-2"]), rfl, by simp [Map.HasKey]⟩
  have f3 : Free (ldMixed.groups.take 1) := by
    simp [Free, Logs.groups, ldMixed, Map.HasKey]
  have k3 : ∃ g, ldMixed.groups[1]? = some g ∧ g.1.HasKey TenetAttrKey :=
    ⟨([(TenetAttrKey, Value.str "someone")], ["log-2"]), rfl, by simp [Map.HasKey]⟩
  exact ⟨⟨h0, f1, k1, f2, k2, f3, k3⟩,
    failed_call_leaves_partial_stamps (ctxOf ["someone"]) tdMixed mdMixed ldMixed 1 1 1
      h0 f1 k1 f2 k2 f3 k3⟩

/-- C10 as written fails: for the request `X-ORGANIZATION-ID: acme` and a
resource that already has `organization = "someone"` the call fails with the
conflicting-tenant error, and the one warning written has the single field
`organization = "acme"`; no field of it holds the value `someone` found on the
resource. -/
theorem warning_value_counterexample :
    IsConflictingTenant (processTraces (ctxOf ["acme"]) tdTagged).err ∧
      (∀ g ∈ tdTagged.groups, g.1.Get TenetAttrKey = some (Value.str "someone")) ∧
      (processTraces (ctxOf ["acme"]) tdTagged).logs =
        [⟨Level.warn,
          "invalid resource in span already includes the tenant information, dropping",
          [⟨"organization", "acme"⟩]⟩] ∧
      (∀ e ∈ (processTraces (ctxOf ["acme"]) tdTagged).logs, ∀ f ∈ e.fields,
        f.val ≠ "someone") := by
  have hl : (processTraces (ctxOf ["acme"]) tdTagged).logs =
      [⟨Level.warn,
        "invalid resource in span already includes the tenant information, dropping",
        [⟨"organization", "acme"⟩]⟩] := by rfl
  refine ⟨⟨Value.str "someone", by rfl⟩, ?_, hl, ?_⟩
  · intro g hg
    rw [List.mem_singleton.mp hg]
    rfl
  · rw [hl]
    decide

/-- C10, amended: when one of the three operations fails with the
conflicting-tenant error, it writes exactly one log line, a warning, whose only
field has the key `organization` and as value the tenant identifier derived
from the request (the metadata values joined with `;`). -/
theorem conflict_warning_carries_tenant_id {S M L : Type} (ctx : Context)
    (td : Traces S) (md : Metrics M) (ld : Logs L)
    (ht : IsConflictingTenant (processTraces ctx td).err)
    (hm : IsConflictingTenant (processMetrics ctx md).err)
    (hl : IsConflictingTenant (processLogs ctx ld).err) :
    (processTraces ctx td).logs =
        [⟨Level.warn,
          "invalid resource in span already includes the tenant information, dropping",
          [⟨TenetAttrKey, strings.Join (tenantValues ctx) ";"⟩]⟩] ∧
      (processMetrics ctx md).logs =
        [⟨Level.warn,
          "invalid resource in metric already includes the tenant information, dropping",
          [⟨TenetAttrKey, strings.Join (tenantValues ctx) ";"⟩]⟩] ∧
      (processLogs ctx ld).logs =
        [⟨Level.warn,
          "invalid resource in log already includes the tenant information, dropping",
          [⟨TenetAttrKey, strings.Join (tenantValues ctx) ";"⟩]⟩] := by
  obtain ⟨i1, c1⟩ := processTraces_of_conflicting_err ctx td ht
  obtain ⟨i2, c2⟩ := processMetrics_of_conflicting_err ctx md hm
  obtain ⟨i3, c3⟩ := processLogs_of_conflicting_err ctx ld hl
  exact ⟨processTraces_conflict_logs ctx td i1 c1, processMetrics_conflict_logs ctx md i2 c2,
    processLogs_conflict_logs ctx ld i3 c3⟩

/-- C10, amended, at the request `X-ORGANIZATION-ID: acme` and the batches whose
resource already has `organization = "someone"`. -/
theorem conflict_warning_carries_tenant_id_witness :
    (IsConflictingTenant (processTraces (ctxOf ["acme"]) tdTagged).err ∧
      IsConflictingTenant (processMetrics (ctxOf ["acme"]) mdTagged).err ∧
      IsConflictingTenant (processLogs (ctxOf ["acme"]) ldTagged).err) ∧
    strings.Join (tenantValues (ctxOf ["acme"])) ";" = "acme" ∧
    ((processTraces (ctxOf ["acme"]) tdTagged).logs =
        [⟨Level.warn,
          "invalid resource in span already includes the tenant information, dropping",
          [⟨TenetAttrKey, strings.Join (tenantValues (ctxOf ["acme"])) ";"⟩]⟩] ∧
      (processMetrics (ctxOf ["acme"]) mdTagged).logs =
        [⟨Level.warn,
          "invalid resource in metric already includes the tenant information, dropping",
          [⟨TenetAttrKey, strings.Join (tenantValues (ctxOf ["acme"])) ";"⟩]⟩] ∧
      (processLogs (ctxOf ["acme"]) ldTagged).logs =
        [⟨Level.warn,
          "invalid resource in log already includes the tenant information, dropping",
          [⟨TenetAttrKey, strings.Join (tenantValues (ctxOf ["acme"])) ";"⟩]⟩]) := by
  have h1 : IsConflictingTenant (processTraces (ctxOf ["acme"]) tdTagged).err :=
    ⟨Value.str "someone", by rfl⟩
  have h2 : IsConflictingTenant (processMetrics (ctxOf ["acme"]) mdTagged).err :=
    ⟨Value.str "someone", by rfl⟩
  have h3 : IsConflictingTenant (processLogs (ctxOf ["acme"]) ldTagged).err :=
    ⟨Value.str "someone", by rfl⟩
  exact ⟨⟨h1, h2, h3⟩, by decide,
    conflict_warning_carries_tenant_id (ctxOf ["acme"]) tdTagged mdTagged ldTagged h1 h2 h3⟩

/-- C11 at the request `X-ORGANIZATION-ID: acme` and a batch whose resource
already has `organization = "someone"`: each of the three operations returns
the error whose text has the key `organization` followed by the two pointer
fields of the value handle; the value `someone` found on the resource is
nowhere in that text, and a batch whose first conflicting resource holds
`first` instead gives the very same error. -/
theorem conflict_error_text_at_tagged_batch :
    ((processTraces (ctxOf ["acme"]) tdTagged).err = some ⟨conflictingTenantText⟩ ∧
      (processMetrics (ctxOf ["acme"]) mdTagged).err = some ⟨conflictingTenantText⟩ ∧
      (processLogs (ctxOf ["acme"]) ldTagged).err = some ⟨conflictingTenantText⟩) ∧
    (∀ g ∈ tdTagged.groups, g.1.Get TenetAttrKey = some (Value.str "someone")) ∧
    glyphs "organization" <:+: conflictingTenantText ∧
    ¬ glyphs "someone" <:+: conflictingTenantText ∧
    FirstConflictAt tdTwice.groups 1 (Value.str "first") ∧
    (processTraces (ctxOf ["acme"]) tdTwice).err =
      (processTraces (ctxOf ["acme"]) tdTagged).err := by
  refine ⟨⟨by rfl, by rfl, by rfl⟩, ?_, by decide, by decide, ?_, by rfl⟩
  · intro g hg
    rw [List.mem_singleton.mp hg]
    rfl
  · exact ⟨by simp [Free, Traces.groups, tdTwice, Map.HasKey],
      ([(TenetAttrKey, Value.str "first")], ["span-2"]), rfl, rfl⟩

/-- C12: when the metadata values under `X-ORGANIZATION-ID` joined with `;`
are the empty string, each of the three operations fails with the
missing-tenant error and the batch that was passed in ends exactly as it was
given, on every batch. -/
theorem missing_tenant_leaves_input_untouched {S M L : Type} (ctx : Context)
    (td : Traces S) (md : Metrics M) (ld : Logs L)
    (h : strings.Join (tenantValues ctx) ";" = "") :
    (IsMissingTenant (processTraces ctx td).err ∧ (processTraces ctx td).input = td) ∧
      (IsMissingTenant (processMetrics ctx md).err ∧ (processMetrics ctx md).input = md) ∧
      (IsMissingTenant (processLogs ctx ld).err ∧ (processLogs ctx ld).input = ld) := by
  obtain ⟨e1, _, i1, _⟩ := processTraces_of_empty ctx td h
  obtain ⟨e2, _, i2, _⟩ := processMetrics_of_empty ctx md h
  obtain ⟨e3, _, i3, _⟩ := processLogs_of_empty ctx ld h
  exact ⟨⟨e1, i1⟩, ⟨e2, i2⟩, ⟨e3, i3⟩⟩

/-- C12 at a request without metadata and the batches of two resources, one of
which already has `organization`. -/
theorem missing_tenant_leaves_input_untouched_witness :
    strings.Join (tenantValues ⟨none⟩) ";" = "" ∧
    ((IsMissingTenant (processTraces ⟨none⟩ tdMixed).err ∧
        (processTraces ⟨none⟩ tdMixed).input = tdMixed) ∧
      (IsMissingTenant (processMetrics ⟨none⟩ mdMixed).err ∧
        (processMetrics ⟨none⟩ mdMixed).input = mdMixed) ∧
      (IsMissingTenant (processLogs ⟨none⟩ ldMixed).err ∧
        (processLogs ⟨none⟩ ldMixed).input = ldMixed)) := by
  have h : strings.Join (tenantValues ⟨none⟩) ";" = "" := by decide
  exact ⟨h, missing_tenant_leaves_input_untouched ⟨none⟩ tdMixed mdMixed ldMixed h⟩

/-- C13: two contexts that hold the same list of values under
`X-ORGANIZATION-ID` give, on every batch, the same outcome of each of the three
operations: the same returned batch, the same error, the same final state of
the batch passed in and the same log lines, whatever else the contexts carry. -/
theorem outcome_depends_only_on_tenant_values {S M L : Type} (ctx1 ctx2 : Context)
    (td : Traces S) (md : Metrics M) (ld : Logs L)
    (h : tenantValues ctx1 = tenantValues ctx2) :
    processTraces ctx1 td = processTraces ctx2 td ∧
      processMetrics ctx1 md = processMetrics ctx2 md ∧
      processLogs ctx1 ld = processLogs ctx2 ld := by
  have h2 : (client.FromContext ctx1).metadata.Get TenetHeaderKey =
      (client.FromContext ctx2).metadata.Get TenetHeaderKey := h
  refine ⟨?_, ?_, ?_⟩
  · simp only [processTraces, h2]
  · simp only [processMetrics, h2]
  · simp only [processLogs, h2]

/-- C13 at two requests that both hold `someone` under `X-ORGANIZATION-ID`, one
of them with two further metadata keys. -/
theorem outcome_depends_only_on_tenant_values_witness :
    tenantValues (ctxOf ["someone"]) = tenantValues (ctxWithOthers ["someone"]) ∧
    (processTraces (ctxOf ["someone"]) tdMixed =
        processTraces (ctxWithOthers ["someone"]) tdMixed ∧
      processMetrics (ctxOf ["someone"]) mdService =
        processMetrics (ctxWithOthers ["someone"]) mdService ∧
      processLogs (ctxOf ["someone"]) ldPlain =
        processLogs (ctxWithOthers ["someone"]) ldPlain) := by
  have h : tenantValues (ctxOf ["someone"]) = tenantValues (ctxWithOthers ["someone"]) := by
    decide
  exact ⟨h, outcome_depends_only_on_tenant_values (ctxOf ["someone"])
    (ctxWithOthers ["someone"]) tdMixed mdService ldPlain h⟩

end TenantTransform
